import Mathlib

/-!
Verification of the xan CSV toolkit against its specification.

The development shallowly embeds the parts of the Rust sources that the
checked claims are about:

* `src/xan/functions.rs` — the scalar function library of the expression
  engine (`get`, `slice`, `contains`, `count`, `trim`, `upper`, dispatch);
* `src/xan/parser.rs` — the minimal pipeline-of-calls expression grammar;
* `src/cmd/moonblade.rs` — the shared expression-driven row-transform
  runner (modes, error policies, `handle_eval_result`, `handle_row_error`,
  the Transform-mode implicit `col(i) | …` prefix, the sequential and
  parallel row loops);
* `src/cmd/agg.rs` — the sequential and parallel per-row error paths;
* `src/main.rs` — the error taxonomy and exit-code dispatch;
* `src/graph.rs` — the graph builder (`add_node`, `add_edge`);
* `src/cmd/tokenize.rs` — argument validation and the sentence/paragraph
  tokenization and row-emission paths.

Strings and byte fields are modelled as `List Char`; machine integers as
`Int`/`Nat` with explicit wrapping where the Rust code can wrap.  Types that
live in repository modules outside the examined sources (the dynamic-value
casts, the union-find collection, the selector resolution, the pipeline
evaluator of the `moonblade` module) are modelled from the specification and
say so in their doc comments.
-/

namespace Xan

/-- Strings are modelled as lists of characters. -/
abbrev Str := List Char

/-- Byte records are modelled as lists of fields. -/
abbrev Record := List Str

/-- UTF-8 byte length of a string, mirroring Rust's `String::len`. -/
def utf8Len (s : Str) : Nat := (s.map Char.utf8Size).sum

/-- Literal substring test, mirroring Rust's `str::contains` with a `&str`
pattern (which is a plain substring search, not a regex search). -/
def strContains (s pat : Str) : Bool :=
  (List.range (s.length + 1)).any (fun i => pat.isPrefixOf (s.drop i))

/-- Scanning loop of `countMatches` for a non-empty pattern: count
non-overlapping, left-to-right occurrences, as Rust's `str::matches` does.
The fuel argument only drives structural recursion; every step consumes at
least one character, so fuel equal to the scanned length is enough. -/
def countMatchesGo (p : Char) (ps : Str) : Nat → Str → Nat
  | 0, _ => 0
  | _ + 1, [] => 0
  | fuel + 1, c :: rest =>
    if (p :: ps).isPrefixOf (c :: rest) then
      1 + countMatchesGo p ps fuel (rest.drop ps.length)
    else
      countMatchesGo p ps fuel rest

/-- Number of non-overlapping matches of `pat` in `s`, mirroring Rust's
`str::matches(..).count()` (an empty pattern matches at every boundary). -/
def countMatches (s pat : Str) : Nat :=
  match pat with
  | [] => s.length + 1
  | p :: ps => countMatchesGo p ps s.length s

/-- Casting an `i64` to `usize`, as Rust's `as usize` does: wrap modulo 2^64. -/
def i64ToUsize (x : Int) : Nat := (x % (2 : Int) ^ 64).toNat

/-- Mirrors Rust's `char::is_whitespace` on the whitespace characters the
claims exercise. -/
def isRustWhitespace (c : Char) : Bool :=
  c = ' ' || c = '\t' || c = '\n' || c = '\r'

/-- Strip characters satisfying `p` from both ends of a string, as Rust's
`str::trim_matches` does. -/
def trimMatches (p : Char → Bool) (s : Str) : Str :=
  ((s.dropWhile p).reverse.dropWhile p).reverse

/-- The decimal digit character for `d < 10`. -/
def digitChar (d : Nat) : Char :=
  match d with
  | 0 => '0' | 1 => '1' | 2 => '2' | 3 => '3' | 4 => '4'
  | 5 => '5' | 6 => '6' | 7 => '7' | 8 => '8' | 9 => '9'
  | _ => '0'

/-- Fueled digit emission; `n / 10 < n` for `n ≥ 10`, so fuel `n + 1`
suffices. -/
def natDigitsGo : Nat → Nat → Str
  | 0, _ => []
  | fuel + 1, n =>
    if n < 10 then [digitChar n]
    else natDigitsGo fuel (n / 10) ++ [digitChar (n % 10)]

/-- Decimal rendering of a natural number, as Rust's `Display` for integers
renders a nonnegative value. -/
def natDigits (n : Nat) : Str := natDigitsGo (n + 1) n

end Xan

namespace Xan

/-- The dynamic value model of the expression engine (`DynamicValue`): a
tagged union of absent, boolean, integer, float, string, regular expression
and list values.  Floats are represented exactly as rationals since no claim
depends on `f64` rounding; the map and datetime variants are omitted as no
claim exercises them. -/
inductive Value where
  | vnone
  | bool (b : Bool)
  | int (i : Int)
  | float (q : Rat)
  | str (s : Str)
  | regex (pattern : Str) (caseInsensitive : Bool)
  | list (l : List Value)
deriving Repr

/-- Truthiness of a dynamic value (spec §3): absent, `false`, `0`,
empty string and empty list are falsey; everything else is truthy. -/
def Value.is_truthy : Value → Bool
  | .vnone => false
  | .bool b => b
  | .int i => i != 0
  | .float q => q != 0
  | .str s => !s.isEmpty
  | .regex _ _ => true
  | .list l => !l.isEmpty

def Value.is_falsey (v : Value) : Bool := !v.is_truthy

/-- Type name of a dynamic value, mirroring `DynamicValue::type_of`. -/
def Value.type_of : Value → Str
  | .vnone => "none".data
  | .bool _ => "boolean".data
  | .int _ => "integer".data
  | .float _ => "float".data
  | .str _ => "string".data
  | .regex _ _ => "regex".data
  | .list _ => "list".data

/-- Flattened view of a value, used by the Flatmap mode (spec §4.11): a list
flattens to its elements, a scalar flattens to itself. -/
def Value.flat_iter : Value → List Value
  | .list l => l
  | v => [v]

/-- Call errors of the scalar function library (`CallError`).  The error
module itself is not among the examined sources; the variants are the ones
the examined `functions.rs` constructs. -/
inductive CallError where
  | unknownFunction (name : Str)
  | invalidArity (expected got : Nat)
  | cast (fromType toType : Str)
  | notImplemented (t : Str)
  | custom (msg : Str)
deriving Repr

/-- Result type of a scalar function call. -/
abbrev FunctionResult := Except CallError Value

/-- Modelled from the spec: `BoundArguments::get2` of the missing
`xan/types.rs` module.  Per the data model (§3, "arity and type-coercion
checks performed at call time") it validates that exactly two arguments are
bound and returns them. -/
def get2 (args : List Value) : Except CallError (Value × Value) :=
  match args with
  | [a, b] => .ok (a, b)
  | _ => .error (.invalidArity 2 args.length)

/-- Modelled from the spec: `try_as_i64` of the missing `xan/types.rs`
module.  Only the integer case is exercised by the claims; the remaining
coercions are conservatively a cast error. -/
def tryAsI64 : Value → Except CallError Int
  | .int i => .ok i
  | v => .error (.cast v.type_of "integer".data)

/-- Modelled from the spec: `try_as_str` of the missing `xan/types.rs`
module.  Strings cast to themselves; the spec documents no string cast for
regular-expression values, so casting a regex (or any other non-string
variant not exercised by the claims) is a cast error. -/
def tryAsStr : Value → Except CallError Str
  | .str s => .ok s
  | v => .error (.cast v.type_of "string".data)

/-- Modelled from the spec: `BoundArguments::get2_as_str`, combining the
exact-arity check with the string cast of both arguments. -/
def get2AsStr (args : List Value) : Except CallError (Str × Str) := do
  let (a, b) ← get2 args
  let sa ← tryAsStr a
  let sb ← tryAsStr b
  pure (sa, sb)

/-- A character option lifted to a value, mirroring
`DynamicValue::from(Option<char>)`. -/
def charOptValue : Option Char → Value
  | none => .vnone
  | some c => .str [c]

namespace Fns

/-- The `get` scalar function (functions.rs): element/character at a
possibly-negative index.  A negative index is offset by the sequence length
(the *byte* length for strings, via `String::len`), an index still negative
after the adjustment yields absent, and character access is by `chars().nth`. -/
def get (args : List Value) : FunctionResult := do
  let (target, index) ← get2 args
  let i ← tryAsI64 index
  match target with
  | .str s =>
    let i := if i < 0 then (utf8Len s : Int) + i else i
    if i < 0 then
      pure .vnone
    else
      pure (charOptValue (s.get? i.toNat))
  | .list l =>
    let i := if i < 0 then (l.length : Int) + i else i
    if i < 0 then
      pure .vnone
    else
      pure ((l.get? i.toNat).getD .vnone)
  | v => .error (.cast v.type_of "sequence".data)

/-- The `slice` scalar function (functions.rs): substring by character
position.  With no end argument a negative start is offset by the character
count and clamped at 0; with an end argument a negative start yields the
empty string outright, and a negative end is offset by the character count
and clamped at 0; the taken length `(hi - lo) as usize` wraps as in Rust. -/
def slice (args : List Value) : FunctionResult := do
  if args.length < 2 || args.length > 3 then
    throw (.invalidArity 2 args.length)
  let target := args.getD 0 .vnone
  match target with
  | .str s => do
    let lo ← tryAsI64 (args.getD 1 .vnone)
    match args.get? 2 with
    | none =>
      if lo < 0 then
        let l : Int := s.length
        let lo' := max 0 (l + lo)
        pure (.str (s.drop lo'.toNat))
      else
        pure (.str (s.drop lo.toNat))
    | some hiValue => do
      let hi ← tryAsI64 hiValue
      if lo < 0 then
        pure (.str [])
      else
        let hi := if hi < 0 then max 0 ((s.length : Int) + hi) else hi
        pure (.str ((s.drop lo.toNat).take (i64ToUsize (hi - lo))))
  | .list _ => .error (.notImplemented "list".data)
  | v => .error (.cast v.type_of "sequence".data)

/-- The `contains` scalar function (functions.rs): for a string target the
pattern is cast to a string and looked up with Rust's literal
`str::contains`; lists are not implemented. -/
def contains (args : List Value) : FunctionResult := do
  let (a, b) ← get2 args
  match a with
  | .str text => do
    let pattern ← tryAsStr b
    pure (.bool (strContains text pattern))
  | .list _ => .error (.notImplemented "list".data)
  | v => .error (.cast v.type_of "sequence".data)

/-- The `count` scalar function (functions.rs): casts both arguments to
strings and counts literal, non-overlapping matches via `str::matches`. -/
def count (args : List Value) : FunctionResult := do
  let (s, pattern) ← get2AsStr args
  pure (.int (countMatches s pattern))

/-- The `trim` scalar function (functions.rs): strip whitespace, or all
characters present in the optional second argument, from both ends. -/
def trim (args : List Value) : FunctionResult := do
  if args.length < 1 || args.length > 2 then
    throw (.invalidArity 1 args.length)
  let s ← tryAsStr (args.getD 0 .vnone)
  match args.get? 1 with
  | none => pure (.str (trimMatches isRustWhitespace s))
  | some arg => do
    let pattern ← tryAsStr arg
    pure (.str (trimMatches (fun c => pattern.contains c) s))

/-- Modelled from the spec: `BoundArguments::get1_as_str` of the missing
types module — exactly one argument, cast to a string. -/
def get1AsStr (args : List Value) : Except CallError Str :=
  match args with
  | [a] => tryAsStr a
  | _ => .error (.invalidArity 1 args.length)

/-- The `upper` scalar function (functions.rs): `str::to_uppercase`,
modelled per character (the claims only exercise ASCII). -/
def upper (args : List Value) : FunctionResult := do
  let s ← get1AsStr args
  pure (.str (s.map Char.toUpper))

/-- The `lower` scalar function (functions.rs): `str::to_lowercase`,
modelled per character. -/
def lower (args : List Value) : FunctionResult := do
  let s ← get1AsStr args
  pure (.str (s.map Char.toLower))

end Fns

/-- The scalar-function dispatch (`call` in functions.rs), restricted to the
functions the claims exercise; the remaining catalog entries fall through to
`UnknownFunction` exactly as an unlisted name does in the source. -/
def callFn (name : Str) (args : List Value) : FunctionResult :=
  if name = "contains".data then Fns.contains args
  else if name = "count".data then Fns.count args
  else if name = "get".data then Fns.get args
  else if name = "lower".data then Fns.lower args
  else if name = "slice".data then Fns.slice args
  else if name = "trim".data then Fns.trim args
  else if name = "upper".data then Fns.upper args
  else .error (.unknownFunction name)

end Xan

namespace Xan.Parser

/-!
Embedding of `src/xan/parser.rs`, the minimal pipeline-of-calls expression
grammar (nom combinators).  The character classes are nom's ASCII classes.
The two `separated_list0` loops are driven by a fuel argument so that they
stay structurally recursive and evaluate by `rfl`; every loop iteration
consumes at least one character (the separator's mandatory `,`/`|`), so fuel
equal to the remaining input length is enough, and a fuel-irrelevance lemma
is proved below.  The `string_literal` parser of the source is not embedded:
it is not reachable from `argument` or `pipeline`, which are the only entry
points the claims exercise.
-/

/-- Argument AST of the minimal grammar (`Argument` in parser.rs). -/
inductive Argument where
  | identifier (name : Str)
  | stringLiteral (s : Str)
  | floatLiteral (q : Rat)
  | integerLiteral (i : Int)
  | booleanLiteral (b : Bool)
  | underscore
deriving Repr, DecidableEq

/-- A function call node (`FunctionCall` in parser.rs). -/
structure FunctionCall where
  name : Str
  args : List Argument
deriving Repr, DecidableEq

/-- Result of a parser: the parsed value and the remaining input. -/
abbrev PRes (α : Type) := Option (α × Str)

/-- nom's ASCII alphabetic class (`alpha1`), stated on code points. -/
def isAlphaAscii (c : Char) : Bool :=
  (97 ≤ c.toNat && c.toNat ≤ 122) || (65 ≤ c.toNat && c.toNat ≤ 90)

/-- nom's ASCII digit class (`digit1`), stated on code points. -/
def isDigitAscii (c : Char) : Bool := 48 ≤ c.toNat && c.toNat ≤ 57

/-- nom's ASCII alphanumeric class (`alphanumeric1`). -/
def isAlphanumericAscii (c : Char) : Bool := isAlphaAscii c || isDigitAscii c

/-- Continuation characters of an identifier:
`many0(alt((alphanumeric1, tag("_"), tag("-"))))`. -/
def isIdentChar (c : Char) : Bool := isAlphanumericAscii c || c = '_' || c = '-'

/-- nom's `space0` class: space and tab. -/
def isSpaceTab (c : Char) : Bool := c = ' ' || c = '\t'

/-- Digit or `_` thousands separator, the continuation class of
`integer_literal`. -/
def isDigitOrUnderscore (c : Char) : Bool := isDigitAscii c || c = '_'

/-- `char(c)`: consume exactly the character `c`. -/
def pchar (c : Char) : Str → PRes Unit
  | x :: rest => if x = c then some ((), rest) else none
  | [] => none

/-- `tag(t)`: consume exactly the literal `t`. -/
def ptag (t : Str) (input : Str) : PRes Unit :=
  if t.isPrefixOf input then some ((), input.drop t.length) else none

/-- `space0`: skip spaces and tabs (never fails). -/
def dropSpaces (input : Str) : Str := input.dropWhile isSpaceTab

/-- `boolean_literal`: `alt((value(true, tag("true")), value(false, tag("false"))))`. -/
def boolean_literal (input : Str) : PRes Bool :=
  match ptag "true".data input with
  | some ((), rest) => some (true, rest)
  | none =>
    match ptag "false".data input with
    | some ((), rest) => some (false, rest)
    | none => none

/-- `underscore`: `value((), char('_'))`. -/
def underscore (input : Str) : PRes Unit := pchar '_' input

/-- `identifier`: `recognize(pair(alpha1, many0(alt((alphanumeric1, tag("_"), tag("-"))))))`
— a leading ASCII letter followed by the longest run of identifier
characters. -/
def identifier (input : Str) : PRes Str :=
  match input with
  | c :: _ =>
    if isAlphaAscii c then
      some (input.takeWhile isIdentChar, input.dropWhile isIdentChar)
    else none
  | [] => none

/-- Decimal value of a digit string. -/
def parseDigits (l : Str) : Nat :=
  l.foldl (fun acc c => 10 * acc + (c.toNat - 48)) 0

/-- `integer_literal`: `recognize(pair(digit1, many0(alt((digit1, tag("_"))))))`
mapped through `str::replace("_", "").parse::<i64>()`, which fails on
overflow past `i64::MAX`. -/
def integer_literal (input : Str) : PRes Int :=
  match input with
  | c :: _ =>
    if isDigitAscii c then
      let tk := input.takeWhile isDigitOrUnderscore
      let rest := input.dropWhile isDigitOrUnderscore
      let v := parseDigits (tk.filter (fun x => x ≠ '_'))
      if v < 2 ^ 63 then some ((v : Int), rest) else none
    else none
  | [] => none

/-- Optional sign of a float literal or exponent. -/
def floatSign (i : Str) : Bool × Str :=
  match i with
  | x :: t => if x = '+' then (false, t) else if x = '-' then (true, t) else (false, i)
  | [] => (false, i)

/-- Exponent clause of nom's `double`: `[eE] [+-]? digit1`. -/
def floatExponent (input : Str) : Option (Int × Str) :=
  match input with
  | e :: r1 =>
    if e = 'e' || e = 'E' then
      match (floatSign r1).2 with
      | c :: _ =>
        if isDigitAscii c then
          some (((if (floatSign r1).1 then -1 else 1) : Int)
              * (parseDigits (((floatSign r1).2).takeWhile isDigitAscii) : Int),
            ((floatSign r1).2).dropWhile isDigitAscii)
        else none
      | [] => none
    else none
  | [] => none

/-- Attach an optional exponent clause to a parsed mantissa. -/
def withExp (neg : Bool) (mantissa : Rat) (rest : Str) : PRes Rat :=
  let sgn : Rat := if neg then -1 else 1
  match floatExponent rest with
  | some (e, rest') => some (sgn * mantissa * (10 : Rat) ^ e, rest')
  | none => some (sgn * mantissa, rest)

/-- `float_literal` (nom's `double` on finite decimal notation):
`[+-]? (digit1 ('.' digit*)? | '.' digit1) ([eE][+-]?digit1)?`.  The value is
represented exactly as a rational; no claim depends on `f64` rounding, and
the non-finite literal forms (`inf`, `nan`) are not modelled. -/
def float_literal (input : Str) : PRes Rat :=
  match (floatSign input).2 with
  | c :: r3 =>
    if isDigitAscii c then
      let r1 := (floatSign input).2
      let ip := r1.takeWhile isDigitAscii
      let r2 := r1.dropWhile isDigitAscii
      match r2 with
      | '.' :: r4 =>
        let fp := r4.takeWhile isDigitAscii
        let r5 := r4.dropWhile isDigitAscii
        withExp (floatSign input).1
          ((parseDigits ip : Rat) + (parseDigits fp : Rat) / (10 : Rat) ^ fp.length) r5
      | _ => withExp (floatSign input).1 (parseDigits ip : Rat) r2
    else if c = '.' then
      match r3 with
      | d :: _ =>
        if isDigitAscii d then
          let fp := r3.takeWhile isDigitAscii
          let r4 := r3.dropWhile isDigitAscii
          withExp (floatSign input).1 ((parseDigits fp : Rat) / (10 : Rat) ^ fp.length) r4
        else none
      | [] => none
    else none
  | [] => none

/-- `argument`: ordered choice between boolean literal, identifier, integer
literal not followed by a dot, float literal, and underscore. -/
def argument (input : Str) : PRes Argument :=
  match boolean_literal input with
  | some (b, rest) => some (.booleanLiteral b, rest)
  | none =>
  match identifier input with
  | some (name, rest) => some (.identifier name, rest)
  | none =>
  match integer_literal input with
  | some (v, rest) =>
    -- `terminated(integer_literal, not(char('.')))`
    (match rest with
     | '.' :: _ => (match float_literal input with
        | some (q, rest') => some (.floatLiteral q, rest')
        | none =>
          match underscore input with
          | some ((), rest') => some (.underscore, rest')
          | none => none)
     | _ => some (.integerLiteral v, rest))
  | none =>
  match float_literal input with
  | some (q, rest) => some (.floatLiteral q, rest)
  | none =>
  match underscore input with
  | some ((), rest) => some (.underscore, rest)
  | none => none

/-- `argument_separator`: `space0 ',' space0`. -/
def argument_separator (input : Str) : PRes Unit :=
  match pchar ',' (dropSpaces input) with
  | some ((), r) => some ((), dropSpaces r)
  | none => none

/-- Iteration of `separated_list0(argument_separator, argument)`: repeatedly
parse a separator followed by an argument, stopping (without consuming the
separator) as soon as either fails. -/
def argLoop : Nat → Str → List Argument × Str
  | 0, input => ([], input)
  | fuel + 1, input =>
    match argument_separator input with
    | none => ([], input)
    | some ((), r1) =>
      match argument r1 with
      | none => ([], input)
      | some (a, r2) =>
        (a :: (argLoop fuel r2).1, (argLoop fuel r2).2)

/-- `argument_list`: `separated_list0(argument_separator, argument)`. -/
def argument_list (input : Str) : List Argument × Str :=
  match argument input with
  | none => ([], input)
  | some (a, r) =>
    (a :: (argLoop r.length r).1, (argLoop r.length r).2)

/-- `function_call`: an identifier, optionally followed by
`space0 '(' argument_list ')' space0`; without a parenthesized list the call
implicitly takes a single underscore argument. -/
def function_call (input : Str) : PRes FunctionCall :=
  match identifier input with
  | none => none
  | some (name, r1) =>
    let attempt : Option (List Argument × Str) :=
      match pchar '(' (dropSpaces r1) with
      | none => none
      | some ((), r2) =>
        match pchar ')' (argument_list r2).2 with
        | none => none
        | some ((), r4) => some ((argument_list r2).1, dropSpaces r4)
    match attempt with
    | some (args, rest) => some (⟨name, args⟩, rest)
    | none => some (⟨name, [.underscore]⟩, r1)

/-- `pipe`: `space0 '|' space0`. -/
def pipeSep (input : Str) : PRes Unit :=
  match pchar '|' (dropSpaces input) with
  | some ((), r) => some ((), dropSpaces r)
  | none => none

/-- Iteration of `separated_list0(pipe, function_call)`. -/
def pipeLoop : Nat → Str → List FunctionCall × Str
  | 0, input => ([], input)
  | fuel + 1, input =>
    match pipeSep input with
    | none => ([], input)
    | some ((), r1) =>
      match function_call r1 with
      | none => ([], input)
      | some (c, r2) =>
        (c :: (pipeLoop fuel r2).1, (pipeLoop fuel r2).2)

/-- `separated_list0(pipe, function_call)` itself. -/
def pipelineRun (input : Str) : List FunctionCall × Str :=
  match function_call input with
  | none => ([], input)
  | some (c, r) =>
    (c :: (pipeLoop r.length r).1, (pipeLoop r.length r).2)

/-- `pipeline`: `all_consuming(separated_list0(pipe, function_call))` —
trailing unparsed text is a syntax error. -/
def pipeline (input : Str) : Option (List FunctionCall) :=
  if (pipelineRun input).2.isEmpty then some (pipelineRun input).1 else none

end Xan.Parser

namespace Xan

/-!
Pipeline evaluation.  The row-program compiler/evaluator lives in the
repository's `moonblade` module, which is not among the examined sources;
the semantics below are modelled from the specification (§4.9: each stage's
output is substituted for `_`, a bare name mid-pipeline behaves as a unary
call against the pipeline's current value, identifiers are column
references; `col(pos)` returns the cell at that position).  Scalar function
application dispatches through the embedded `callFn` from `functions.rs`.
-/

/-- Modelled from the spec: rendering of a `SpecifiedCallError` (the error
module is not among the examined sources): the function name with the
reason. -/
def renderCallError (fname : Str) (e : CallError) : Str :=
  "error when calling function \"".data ++ fname ++ "\"".data ++
    (match e with
     | .unknownFunction n => ": unknown function ".data ++ n
     | .invalidArity expected got =>
       ": invalid arity, expected ".data ++ natDigits expected ++
         " got ".data ++ natDigits got
     | .cast fromType toType =>
       ": cannot safely cast from type \"".data ++ fromType ++
         "\" to type \"".data ++ toType ++ "\"".data
     | .notImplemented t => ": not implemented for type ".data ++ t
     | .custom msg => ": ".data ++ msg)

/-- Modelled from the spec: evaluation of one minimal-grammar argument
(§4.9): `_` is the pipeline's current value, an identifier is a column
reference resolved against the headers, literals evaluate to themselves. -/
def evalArg (headers record : Record) (cur : Value) :
    Parser.Argument → Except Str Value
  | .underscore => .ok cur
  | .identifier name =>
    match headers.findIdx? (fun h => h = name) with
    | some i => .ok (.str (record.getD i []))
    | none => .error ("cannot find column \"".data ++ name ++ "\"".data)
  | .integerLiteral n => .ok (.int n)
  | .floatLiteral q => .ok (.float q)
  | .booleanLiteral b => .ok (.bool b)
  | .stringLiteral s => .ok (.str s)

/-- Modelled from the spec: evaluation of one pipeline stage.  `col` with an
integer argument returns the cell at that position (§4.9's
`col(name_or_pos)`; only the positional form is exercised by the claims —
it is the form the Transform-mode implicit prefix generates); every other
name evaluates its arguments and dispatches through the scalar function
library. -/
def evalCall (headers record : Record) (cur : Value)
    (c : Parser.FunctionCall) : Except Str Value :=
  if c.name = "col".data then
    match c.args with
    | [.integerLiteral n] =>
      if 0 ≤ n ∧ n.toNat < record.length then .ok (.str (record.getD n.toNat []))
      else .error "col: column out of range".data
    | _ => .error "col: unsupported argument form".data
  else
    match c.args.mapM (evalArg headers record cur) with
    | .error e => .error e
    | .ok vs =>
      match callFn c.name vs with
      | .ok v => .ok v
      | .error e => .error (renderCallError c.name e)

/-- Modelled from the spec: evaluation of a whole pipeline (§4.9), threading
the current value from stage to stage, starting from the absent value. -/
def evalPipeline (headers record : Record)
    (cs : List Parser.FunctionCall) : Except Str Value :=
  cs.foldlM (fun cur c => evalCall headers record cur c) Value.vnone

/-- Modelled from the spec: `Config::single_selection` (§4.2) for a selector
that is a bare column name, as the Transform mode uses it: resolution
succeeds exactly when exactly one column carries that name. -/
def single_selection (headers : Record) (name : Str) : Except Str Nat :=
  match (List.range headers.length).filter (fun i => headers.getD i [] = name) with
  | [i] => .ok i
  | _ => .error ("selection error: ".data ++ name)

end Xan

namespace Xan

/-!
Embedding of `src/cmd/moonblade.rs`: the shared expression-driven
row-transform runner.  The record-editing helpers (`replace_at`, append) of
the `util` module are not among the examined sources and are modelled from
§4.20 of the specification (they produce a new record).  The serialization
of a dynamic value to an output cell (`DynamicValue::serialize_as_bytes`,
also outside the examined sources) is abstracted as a function parameter
`ser`: every claim below holds for any serialization.
-/

/-- Modelled from the spec: `ImmutableRecordHelpers::replace_at` (§4.20) — a
new record with the field at `i` replaced. -/
def replace_at (r : Record) (i : Nat) (v : Str) : Record := r.set i v

/-- Modelled from the spec: `ImmutableRecordHelpers::remove` (§4.20) — a new
record with the field at `i` removed. -/
def remove (r : Record) (i : Nat) : Record := r.eraseIdx i

/-- The runner modes (`MoonbladeMode`). -/
inductive MoonbladeMode where
  | map
  | foreach
  | filter (invert : Bool)
  | transform
  | flatmap
deriving Repr, DecidableEq

def MoonbladeMode.is_map : MoonbladeMode → Bool
  | .map => true
  | _ => false

def MoonbladeMode.is_flatmap : MoonbladeMode → Bool
  | .flatmap => true
  | _ => false

def MoonbladeMode.is_transform : MoonbladeMode → Bool
  | .transform => true
  | _ => false

def MoonbladeMode.cannot_report : MoonbladeMode → Bool
  | .filter _ => true
  | .flatmap => true
  | .foreach => true
  | _ => false

/-- The error policies (`MoonbladeErrorPolicy`). -/
inductive MoonbladeErrorPolicy where
  | panic
  | report
  | ignore
  | log
deriving Repr, DecidableEq

/-- `MoonbladeErrorPolicy::try_from_restricted`: the policy names `agg`
accepts (`report` is rejected). -/
def MoonbladeErrorPolicy.try_from_restricted (value : Str) :
    Except Str MoonbladeErrorPolicy :=
  if value = "panic".data then .ok .panic
  else if value = "ignore".data then .ok .ignore
  else if value = "log".data then .ok .log
  else .error ("unknown error policy \"".data ++ value ++ "\"".data)

def MoonbladeErrorPolicy.will_report : MoonbladeErrorPolicy → Bool
  | .report => true
  | _ => false

/-- `MoonbladeErrorPolicy::handle_row_error`: Panic propagates the error,
Ignore swallows it, Log prints `Row n°{index}: {error}` with the index *as
given by the caller*; the Report branch is the source's `unreachable!()`.
The second component collects the diagnostic-stream lines. -/
def MoonbladeErrorPolicy.handle_row_error (p : MoonbladeErrorPolicy)
    (index : Nat) (error : Str) : Except Str Unit × List Str :=
  match p with
  | .panic => (.error error, [])
  | .ignore => (.ok (), [])
  | .log => (.ok (), ["Row n°".data ++ natDigits index ++ ": ".data ++ error])
  | .report => (.error "unreachable: handle_row_error with Report".data, [])

/-- The runner's argument bundle (`MoonbladeCmdArgs`), restricted to the
fields the row loop and header construction read. -/
structure MoonbladeCmdArgs where
  target_column : Option Str := none
  rename_column : Option Str := none
  map_expr : Str := []
  error_policy : MoonbladeErrorPolicy := .panic
  error_column_name : Option Str := none
  mode : MoonbladeMode := .map

/-- `handle_eval_result`: shapes the emitted records for one row according
to the mode, and applies the error policy on a failed evaluation.  Returns
the records to emit (or the Panic abort message) together with the
diagnostic-stream lines.  The `replace` argument is Transform/Flatmap's
target column; the source unwraps it where it must be present. -/
def handle_eval_result (ser : Value → Str) (args : MoonbladeCmdArgs)
    (index : Nat) (record : Record)
    (eval_result : Except Str Value) (replace : Option Nat) :
    Except Str (List Record) × List Str :=
  match eval_result with
  | .ok value =>
    match args.mode with
    | .filter invert =>
      let should_emit := if invert then !value.is_truthy else value.is_truthy
      (.ok (if should_emit then [record] else []), [])
    | .map =>
      let r1 := record ++ [ser value]
      let r2 := if args.error_policy.will_report then r1 ++ [[]] else r1
      (.ok [r2], [])
    | .foreach => (.ok [], [])
    | .transform =>
      match replace with
      | none => (.error "called Option::unwrap on a None value".data, [])
      | some i =>
        let r1 := replace_at record i (ser value)
        let r2 := if args.error_policy.will_report then r1 ++ [[]] else r1
        (.ok [r2], [])
    | .flatmap =>
      if value.is_falsey then (.ok [], [])
      else
        (.ok (value.flat_iter.map (fun sub =>
          match replace with
          | some i => replace_at record i (ser sub)
          | none => record ++ [ser sub])), [])
  | .error err =>
    match args.error_policy with
    | .ignore =>
      if args.mode.is_map then (.ok [record ++ [[]]], [])
      else if args.mode.is_transform then
        match replace with
        | none => (.error "called Option::unwrap on a None value".data, [])
        | some i => (.ok [replace_at record i []], [])
      else (.ok [], [])
    | .report =>
      if args.mode.cannot_report then
        (.error "unreachable: Report with a mode that cannot report".data, [])
      else if args.mode.is_map then (.ok [record ++ [[], err]], [])
      else if args.mode.is_transform then
        match replace with
        | none => (.error "called Option::unwrap on a None value".data, [])
        | some i => (.ok [replace_at record i [] ++ [err]], [])
      else (.ok [], [])
    | .log =>
      let line := "Row n°".data ++ natDigits (index + 1) ++ ": ".data ++ err
      if args.mode.is_map then (.ok [record ++ [[]]], [line])
      else if args.mode.is_transform then
        match replace with
        | none => (.error "called Option::unwrap on a None value".data, [line])
        | some i => (.ok [replace_at record i []], [line])
      else (.ok [], [line])
    | .panic =>
      (.error ("Row n°".data ++ natDigits (index + 1) ++ ": ".data ++ err), [])

/-- Outcome of a whole run of the row loop: the records written to the
output stream in order, the diagnostic lines in order, and the abort
message when the run stopped early. -/
structure RunOut where
  emitted : List Record
  logs : List Str
  aborted : Option Str
deriving Repr, DecidableEq

/-- Shared writer loop: consume `(index, record, evaluation result)` triples
in stream order through `handle_eval_result`, writing records until an
abort. -/
def runLoop (ser : Value → Str) (args : MoonbladeCmdArgs) (replace : Option Nat) :
    List (Nat × Record × Except Str Value) → RunOut
  | [] => ⟨[], [], none⟩
  | (i, r, res) :: rest =>
    match handle_eval_result ser args i r res replace with
    | (.error e, logs) => ⟨[], logs, some e⟩
    | (.ok recs, logs) =>
      ⟨recs ++ (runLoop ser args replace rest).emitted,
        logs ++ (runLoop ser args replace rest).logs,
        (runLoop ser args replace rest).aborted⟩

/-- The sequential row loop of `run_moonblade_cmd`: a while loop over the
input records with a counter starting at 0. -/
def run_moonblade_seq_go (ser : Value → Str) (args : MoonbladeCmdArgs)
    (replace : Option Nat) (prog : Nat → Record → Except Str Value) :
    Nat → List Record → RunOut
  | _, [] => ⟨[], [], none⟩
  | i, r :: rest =>
    match handle_eval_result ser args i r (prog i r) replace with
    | (.error e, logs) => ⟨[], logs, some e⟩
    | (.ok recs, logs) =>
      ⟨recs ++ (run_moonblade_seq_go ser args replace prog (i + 1) rest).emitted,
        logs ++ (run_moonblade_seq_go ser args replace prog (i + 1) rest).logs,
        (run_moonblade_seq_go ser args replace prog (i + 1) rest).aborted⟩

/-- Sequential execution of the runner's row loop. -/
def run_moonblade_seq (ser : Value → Str) (args : MoonbladeCmdArgs)
    (replace : Option Nat) (prog : Nat → Record → Except Str Value)
    (records : List Record) : RunOut :=
  run_moonblade_seq_go ser args replace prog 0 records

/-- The tagged evaluation of row `j`: the index assigned by `enumerate()`
*before* dispatch, the row, and the evaluation result — a pure function of
the tagged row, independent of worker scheduling. -/
def jobResult (prog : Nat → Record → Except Str Value) (records : List Record)
    (j : Nat) : Nat × Record × Except Str Value :=
  (j, records.getD j [], prog j (records.getD j []))

/-- Reassembly of tagged worker outputs into input order, as the ordered
parallel bridge (`pariter::parallel_map`) does before handing results to
the single consumer. -/
def resequence {α : Type} (n : Nat) (tagged : List (Nat × α)) :
    List (Nat × α) :=
  (List.range n).filterMap (fun i => tagged.find? (fun x => x.1 == i))

/-- Parallel execution of the runner's row loop: rows are tagged by
`enumerate()` before dispatch, workers finish in an arbitrary completion
order `σ`, and the bridge resequences the tagged results into input order
before the consumer writes them. -/
def run_moonblade_par (ser : Value → Str) (args : MoonbladeCmdArgs)
    (replace : Option Nat) (prog : Nat → Record → Except Str Value)
    (records : List Record) (σ : List Nat) : RunOut :=
  runLoop ser args replace
    (resequence records.length (σ.map (jobResult prog records)))

/-- The Transform-mode header construction of `run_moonblade_cmd`: resolve
the target column to exactly one index, optionally rename it in the output
header, remember it as the column to replace, and prefix the user's
expression with `col(<idx>) | ` so that the column's current value is bound
as the pipeline's starting value. -/
def transform_header_setup (headers : Record) (target_column : Str)
    (rename_column : Option Str) (map_expr : Str) :
    Except Str (Record × Option Nat × Str) := do
  let idx ← single_selection headers target_column
  let modified_headers :=
    match rename_column with
    | some renamed => replace_at headers idx renamed
    | none => headers
  pure (modified_headers, some idx,
    "col(".data ++ natDigits idx ++ ") | ".data ++ map_expr)

end Xan

namespace Xan

/-!
Embedding of the error paths of `src/cmd/agg.rs` and the error taxonomy and
exit-code dispatch of `src/main.rs`.  The aggregation accumulators
themselves are irrelevant to the claims; `run_with_record` is abstracted as
a function from the assigned index and the record to a possible evaluation
error.  `agg.rs` invokes the two-argument error handler on the policy; the
examined `moonblade.rs` defines that handler as `handle_row_error`.
-/

/-- The sequential row loop of `agg`: the index is incremented *before* the
row is fed to the program, so errors are attributed 1-based. -/
def agg_run_seq (policy : MoonbladeErrorPolicy)
    (prog : Nat → Record → Except Str Unit) :
    Nat → List Record → Except Str Unit × List Str
  | _, [] => (.ok (), [])
  | index, record :: rest =>
    match prog (index + 1) record with
    | .ok () => agg_run_seq policy prog (index + 1) rest
    | .error e =>
      match policy.handle_row_error (index + 1) e with
      | (.ok (), logs) =>
        ((agg_run_seq policy prog (index + 1) rest).1,
          logs ++ (agg_run_seq policy prog (index + 1) rest).2)
      | (.error e', logs) => (.error e', logs)

/-- One parallel worker step of `agg`: the record tagged `j` by
`enumerate()` (0-based) is fed to the thread-local program with that same
index, and a failure goes through the policy handler with that same
0-based index. -/
def agg_par_step (policy : MoonbladeErrorPolicy)
    (prog : Nat → Record → Except Str Unit) (records : List Record)
    (j : Nat) : Except Str Unit × List Str :=
  match prog j (records.getD j []) with
  | .ok () => (.ok (), [])
  | .error e => policy.handle_row_error j e

/-- The diagnostic lines produced by `agg`'s parallel path when the workers
finish in completion order `σ` (the unordered bridge imposes no order). -/
def agg_run_par_logs (policy : MoonbladeErrorPolicy)
    (prog : Nat → Record → Except Str Unit) (records : List Record)
    (σ : List Nat) : List Str :=
  (σ.map (fun j => (agg_par_step policy prog records j).2)).flatten

/-- The I/O error kinds the dispatcher distinguishes. -/
inductive IOErrorKind where
  | brokenPipe
  | notFound
  | permissionDenied
  | otherKind
deriving Repr, DecidableEq

/-- The uniform outcome type of every subcommand (`CliError`). -/
inductive CliError where
  | flag (e : Str)
  | csv (e : Str)
  | io (kind : IOErrorKind) (msg : Str)
  | other (msg : Str)
deriving Repr, DecidableEq

/-- The dispatcher's exit handling (`main`): exit code and the lines written
to the diagnostic stream.  A `Flag` error delegates to the argument
parser's own `exit` (third-party), abstracted as `docoptExit`. -/
def main_exit (docoptExit : Str → Nat × List Str) :
    Except CliError Unit → Nat × List Str
  | .ok () => (0, [])
  | .error (.flag e) => docoptExit e
  | .error (.csv e) => (1, [e])
  | .error (.io kind msg) =>
    if kind = .brokenPipe then (0, []) else (1, [msg])
  | .error (.other msg) => (1, [msg])

end Xan

namespace Xan

/-!
Embedding of `src/graph.rs`: the graph builder.  The insertion-ordered node
table (`indexmap::IndexMap`) is modelled as an association list with
position lookup; the edge table (`std::collections::HashMap`) as an
association list whose `insert` replaces in place and reports the previous
entry.  The `UnionFind` collection and the `Attributes`/`JSONType` models
live in repository modules outside the examined sources and are modelled
from the specification (§4.5, §4.6).
-/

/-- `JSONType`: the inferred cell type used for graph attribute schemas. -/
inductive JSONType where
  | float
  | integer
  | string
  | null
deriving Repr, DecidableEq

/-- Modelled from the spec: a typed attribute value of the missing
`json.rs` module (§4.6). -/
inductive JSONValue where
  | float (q : Rat)
  | int (i : Int)
  | str (s : Str)
  | null
deriving Repr, DecidableEq

/-- Modelled from the spec: `Attributes` (§4.6) — an ordered list of named
typed values, not sorted, not deduplicated. -/
abbrev Attributes := List (Str × JSONValue)

/-- Modelled from the spec: the union-find collection of the missing
`collections.rs` module (§4.5) — a growable parent/size forest. -/
structure UnionFind where
  parent : List Nat
  size : List Nat
deriving Repr, DecidableEq

def UnionFind.new : UnionFind := ⟨[], []⟩

/-- Modelled from the spec: `make_set` returns the new element's id, equal
to the array length before insertion. -/
def UnionFind.make_set (uf : UnionFind) : Nat × UnionFind :=
  (uf.parent.length, ⟨uf.parent ++ [uf.parent.length], uf.size ++ [1]⟩)

/-- Root lookup by parent chasing; fuel equal to the forest size bounds the
chain.  The path-compression side effect of the source's `find` only
rewires parents inside one set and is not observed by any claim, so the
representative function is modelled without it. -/
def findRootGo : Nat → List Nat → Nat → Nat
  | 0, _, i => i
  | fuel + 1, parent, i =>
    let p := parent.getD i i
    if p = i then i else findRootGo fuel parent p

/-- Modelled from the spec: `find` returns the representative of `i`'s
set. -/
def UnionFind.find (uf : UnionFind) (i : Nat) : Nat :=
  findRootGo uf.parent.length uf.parent i

/-- Modelled from the spec: `union` merges the two sets, attaching the
smaller under the larger (deterministic tie-break: the second root is
attached under the first). -/
def UnionFind.union (uf : UnionFind) (a b : Nat) : UnionFind :=
  let ra := uf.find a
  let rb := uf.find b
  if ra = rb then uf
  else
    let sa := uf.size.getD ra 0
    let sb := uf.size.getD rb 0
    if sa < sb then ⟨uf.parent.set ra rb, uf.size.set rb (sa + sb)⟩
    else ⟨uf.parent.set rb ra, uf.size.set ra (sa + sb)⟩

/-- `GraphType` (graph.rs). -/
inductive GraphType where
  | directed
  | undirected
deriving Repr, DecidableEq

/-- `GraphOptions` (graph.rs). -/
structure GraphOptions where
  allow_self_loops : Bool := false
  multi : Bool := false
  graph_type : GraphType := .directed
deriving Repr, DecidableEq

/-- A node of the builder (graph.rs `Node`). -/
structure Node where
  key : Str
  attributes : Attributes
deriving Repr, DecidableEq

/-- An edge of the builder (graph.rs `Edge`). -/
structure Edge where
  source : Str
  target : Str
  undirected : Bool
  attributes : Attributes
deriving Repr, DecidableEq

/-- `GraphBuilder` (graph.rs): options, optional component tracking, the
attribute schemas, the insertion-ordered node table and the keyed edge
table. -/
structure GraphBuilder where
  options : GraphOptions := {}
  disjoint_sets : Option UnionFind := none
  node_model : List (Str × JSONType) := []
  edge_model : List (Str × JSONType) := []
  nodes : List (Str × Node) := []
  edges : List ((Nat × Nat) × Edge) := []
deriving Repr, DecidableEq

def GraphBuilder.mark_as_undirected (b : GraphBuilder) : GraphBuilder :=
  { b with options := { b.options with graph_type := .undirected } }

def GraphBuilder.keep_largest_component (b : GraphBuilder) : GraphBuilder :=
  { b with disjoint_sets := some UnionFind.new }

def GraphBuilder.set_node_model (b : GraphBuilder)
    (model : List (Str × JSONType)) : GraphBuilder :=
  { b with node_model := model }

def GraphBuilder.set_edge_model (b : GraphBuilder)
    (model : List (Str × JSONType)) : GraphBuilder :=
  { b with edge_model := model }

/-- `GraphBuilder::add_node`: on first sight the key is inserted with a
fresh dense id equal to the node count before insertion (with a matching
`make_set` when component tracking is on); on repeat sight the existing
entry's position is returned and the new attributes are discarded. -/
def GraphBuilder.add_node (b : GraphBuilder) (key : Str)
    (attributes : Attributes) : Nat × GraphBuilder :=
  let next_id := b.nodes.length
  match b.nodes.findIdx? (fun p => p.1 = key) with
  | some j => (j, b)
  | none =>
    (next_id,
      { b with
        nodes := b.nodes ++ [(key, ⟨key, attributes⟩)],
        disjoint_sets := b.disjoint_sets.map (fun uf => uf.make_set.2) })

/-- `HashMap::insert` on the edge table: replace the entry under an existing
key (returning the previous edge) or append a fresh entry. -/
def edgesInsert (edges : List ((Nat × Nat) × Edge)) (k : Nat × Nat)
    (e : Edge) : Option Edge × List ((Nat × Nat) × Edge) :=
  match edges.find? (fun p => p.1 = k) with
  | some old => (some old.2, edges.map (fun p => if p.1 = k then (k, e) else p))
  | none => (none, edges ++ [(k, e)])

/-- Lookup of an edge by key. -/
def edgesGet (edges : List ((Nat × Nat) × Edge)) (k : Nat × Nat) : Option Edge :=
  (edges.find? (fun p => p.1 = k)).map (·.2)

/-- The self-loop adjustment of `add_edge`'s initial match: a self-loop sets
`allow_self_loops`. -/
def add_edge_options (b : GraphBuilder) (source target : Nat) : GraphOptions :=
  if source = target then { b.options with allow_self_loops := true } else b.options

/-- The key canonicalization of `add_edge`'s initial match: an undirected
edge with `source > target` is swapped to `(min, max)` order. -/
def add_edge_key (source target : Nat) (undirected : Bool) : Nat × Nat :=
  if source = target then (source, target)
  else if undirected && decide (source > target) then (target, source)
  else (source, target)

/-- `GraphBuilder::add_edge`: a self-loop sets the self-loop flag; an
undirected edge with `source > target` is swapped to canonical order before
lookup; both endpoint ids are looked up in the node table (the source
unwraps, so a missing id is modelled as `none`); inserting over an existing
key sets the multigraph flag and the new edge replaces the stored one; and
when component tracking is on, a union of the two ids is performed whether
or not the edge was deduplicated. -/
def GraphBuilder.add_edge (b : GraphBuilder) (source target : Nat)
    (attributes : Attributes) (undirected : Bool) : Option GraphBuilder :=
  let options := add_edge_options b source target
  let s := (add_edge_key source target undirected).1
  let t := (add_edge_key source target undirected).2
  match b.nodes.get? s, b.nodes.get? t with
  | some sn, some tn =>
    let edge : Edge := ⟨sn.2.key, tn.2.key, undirected, attributes⟩
    let ins := edgesInsert b.edges (s, t) edge
    some { b with
      options := if ins.1.isSome then { options with multi := true } else options,
      edges := ins.2,
      disjoint_sets := b.disjoint_sets.map (fun uf => uf.union s t) }
  | _, _ => none

/-- A builder operation of a client driving the graph builder. -/
inductive GOp where
  | node (key : Str) (attributes : Attributes)
  | edge (source target : Nat) (attributes : Attributes) (undirected : Bool)

/-- Replay a sequence of builder operations; `none` models reaching the
`unwrap` panic inside `add_edge`. -/
def runTrace : GraphBuilder → List GOp → Option GraphBuilder
  | b, [] => some b
  | b, .node k a :: ops => runTrace (b.add_node k a).2 ops
  | b, .edge s t a u :: ops =>
    match b.add_edge s t a u with
    | some b' => runTrace b' ops
    | none => none

/-- Id hygiene of a trace: every source and target id passed to `add_edge`
was previously returned by an `add_node` call of the same trace (the `ids`
accumulator collects the returned ids). -/
def traceHygienic : GraphBuilder → List Nat → List GOp → Bool
  | _, _, [] => true
  | b, ids, .node k a :: ops =>
    traceHygienic (b.add_node k a).2 ((b.add_node k a).1 :: ids) ops
  | b, ids, .edge s t a u :: ops =>
    ids.contains s && ids.contains t &&
      traceHygienic ((b.add_edge s t a u).getD b) ids ops

/-- A concrete two-node builder with component tracking, used as a test
vehicle. -/
def twoNodeBuilder : GraphBuilder :=
  (((GraphBuilder.keep_largest_component {}).add_node "a".data []).2.add_node
    "b".data []).2

/-- The two-node builder after one undirected edge `(0, 1)`. -/
def twoNodeEdge01 : GraphBuilder :=
  (twoNodeBuilder.add_edge 0 1 [] true).getD {}

end Xan

namespace Xan

/-!
Embedding of `src/cmd/tokenize.rs`: argument validation, the tokenization
closure's sentence/paragraph early returns, and the row emission of
`write_tokens`.  The external `paltoquet` tokenizers/splitters and the
word-mode pipeline built from the tokenizer builder are third-party or
flag-driven machinery the sentence/paragraph claims never reach; they are
abstracted as function parameters.
-/

/-- The word-token kinds the tokenizer distinguishes. -/
inductive WordTokenKind where
  | word
  | number
  | hashtag
  | mention
  | emoji
  | punct
  | url
  | email
deriving Repr, DecidableEq

def WordTokenKind.as_str : WordTokenKind → Str
  | .word => "word".data
  | .number => "number".data
  | .hashtag => "hashtag".data
  | .mention => "mention".data
  | .emoji => "emoji".data
  | .punct => "punct".data
  | .url => "url".data
  | .email => "email".data

/-- The tokenize arguments the validation and emission paths read. -/
structure TokenizeArgs where
  cmd_words : Bool := false
  cmd_sentences : Bool := false
  cmd_paragraphs : Bool := false
  flag_token_type : Option Str := none
  flag_ngrams : Option Str := none
  flag_keep : Option Str := none
  flag_drop : Option Str := none
  flag_keep_text : Bool := false
  flag_simple : Bool := false
deriving Repr, DecidableEq

/-- `Args::validate`: sentence/paragraph modes reject `--ngrams` and
`-T,--token-type` outright; independently, `--ngrams` and `--token-type`
are mutually exclusive. -/
def TokenizeArgs.validate (a : TokenizeArgs) : Except Str Unit :=
  if a.cmd_sentences || a.cmd_paragraphs then
    if a.flag_ngrams.isSome then
      .error "--ngrams cannot work with paragraphs nor sentences!".data
    else if a.flag_token_type.isSome then
      .error "-T,--token-type cannot work with paragraphs nor sentences!".data
    else if a.flag_ngrams.isSome && a.flag_token_type.isSome then
      .error "--ngrams cannot be used with -T,--token-type!".data
    else .ok ()
  else if a.flag_ngrams.isSome && a.flag_token_type.isSome then
    .error "--ngrams cannot be used with -T,--token-type!".data
  else .ok ()

/-- The tokenization closure of `run`: paragraph and sentence modes return
the external splitter's units (tagged `word`) before the word tokenizer —
and hence every kind/n-gram option — is consulted; word mode runs the
flag-configured word pipeline, abstracted as `wordTokens`. -/
def tokenize_cell (splitParagraphs splitSentences : Str → List Str)
    (wordTokens : TokenizeArgs → Str → List (Str × WordTokenKind))
    (a : TokenizeArgs) (s : Str) : List (Str × WordTokenKind) :=
  if a.cmd_paragraphs then (splitParagraphs s).map (fun p => (p, .word))
  else if a.cmd_sentences then (splitSentences s).map (fun p => (p, .word))
  else wordTokens a s

/-- `write_tokens`: sentence/paragraph modes emit one row per unit; word
mode with a token-type column emits one row per token with two trailing
columns; otherwise one row with the tokens joined by the separator. -/
def write_tokens (a : TokenizeArgs) (col_index : Nat) (record : Record)
    (tokens : List (Str × WordTokenKind)) (sep : Str) : List Record :=
  if a.cmd_paragraphs || a.cmd_sentences then
    tokens.map (fun token =>
      (if a.flag_keep_text then record else remove record col_index) ++ [token.1])
  else if a.flag_token_type.isSome then
    tokens.map (fun token =>
      (if a.flag_keep_text then record else remove record col_index)
        ++ [token.1, token.2.as_str])
  else
    [(if a.flag_keep_text then record else remove record col_index)
      ++ [List.intercalate sep (tokens.map (·.1))]]

end Xan

namespace Xan

theorem natDigitsGo_congr :
    ∀ f g n, n < f → n < g → natDigitsGo f n = natDigitsGo g n := by
  intro f
  induction f with
  | zero => intro g n hf; omega
  | succ f ih =>
    intro g n hf hg
    match g with
    | 0 => omega
    | g + 1 =>
      simp only [natDigitsGo]
      by_cases h : n < 10
      · simp [h]
      · have hdiv : n / 10 < n := Nat.div_lt_self (by omega) (by omega)
        simp only [h, if_false]
        rw [ih g (n / 10) (by omega) (by omega)]

theorem natDigits_lt {n : Nat} (h : n < 10) : natDigits n = [digitChar n] := by
  simp [natDigits, natDigitsGo, h]

theorem natDigits_ge {n : Nat} (h : 10 ≤ n) :
    natDigits n = natDigits (n / 10) ++ [digitChar (n % 10)] := by
  have hdiv : n / 10 < n := Nat.div_lt_self (by omega) (by omega)
  show natDigitsGo (n + 1) n = _
  rw [natDigitsGo, if_neg (by omega),
    natDigitsGo_congr n (n / 10 + 1) (n / 10) (by omega) (by omega)]
  rfl

theorem digitChar_toNat {d : Nat} (h : d < 10) : (digitChar d).toNat = 48 + d := by
  interval_cases d <;> rfl

theorem isDigitAscii_digitChar {d : Nat} (h : d < 10) :
    Parser.isDigitAscii (digitChar d) = true := by
  simp [Parser.isDigitAscii, digitChar_toNat h]
  omega

theorem natDigits_all_digit (n : Nat) :
    ∀ c ∈ natDigits n, Parser.isDigitAscii c = true := by
  induction n using Nat.strong_induction_on with
  | _ n ih =>
    by_cases h : n < 10
    · rw [natDigits_lt h]
      intro c hc
      simp at hc
      subst hc
      exact isDigitAscii_digitChar h
    · rw [natDigits_ge (by omega)]
      intro c hc
      rw [List.mem_append] at hc
      rcases hc with hc | hc
      · exact ih (n / 10) (Nat.div_lt_self (by omega) (by omega)) c hc
      · simp at hc
        subst hc
        exact isDigitAscii_digitChar (Nat.mod_lt _ (by omega))

theorem natDigits_ne_nil (n : Nat) : natDigits n ≠ [] := by
  by_cases h : n < 10
  · rw [natDigits_lt h]; simp
  · rw [natDigits_ge (by omega)]; simp

theorem parseDigits_append_digit (l : Str) (c : Char) :
    Parser.parseDigits (l ++ [c]) = 10 * Parser.parseDigits l + (c.toNat - 48) := by
  simp [Parser.parseDigits, List.foldl_append]

theorem parse_natDigits (n : Nat) : Parser.parseDigits (natDigits n) = n := by
  induction n using Nat.strong_induction_on with
  | _ n ih =>
    by_cases h : n < 10
    · rw [natDigits_lt h]
      simp [Parser.parseDigits, digitChar_toNat h]
    · rw [natDigits_ge (by omega), parseDigits_append_digit,
        ih (n / 10) (Nat.div_lt_self (by omega) (by omega)),
        digitChar_toNat (Nat.mod_lt _ (by omega))]
      omega

end Xan

namespace Xan.Parser

theorem length_dropWhile_le (p : Char → Bool) (l : Str) :
    (l.dropWhile p).length ≤ l.length := by
  induction l with
  | nil => simp
  | cons a l ih =>
    simp only [List.dropWhile]
    cases p a
    · simp
    · simp
      omega

theorem dropSpaces_le (i : Str) : (dropSpaces i).length ≤ i.length :=
  length_dropWhile_le _ i

theorem PRes_inj {α : Type} {x c : α} {y r : Str}
    (h : (some (x, y) : PRes α) = some (c, r)) : c = x ∧ r = y := by
  injection h with h'
  injection h' with h1 h2
  exact ⟨h1.symm, h2.symm⟩

theorem pchar_eq {c : Char} {i r : Str} (h : pchar c i = some ((), r)) :
    i = c :: r := by
  cases i with
  | nil => simp [pchar] at h
  | cons x rest =>
    simp only [pchar] at h
    split at h
    · obtain ⟨-, rfl⟩ := PRes_inj h
      simp_all
    · simp at h

theorem ptag_le {t i r : Str} (h : ptag t i = some ((), r)) :
    r.length ≤ i.length := by
  simp only [ptag] at h
  split at h
  · obtain ⟨-, rfl⟩ := PRes_inj h
    simp
  · simp at h

theorem boolean_literal_le {i : Str} {b : Bool} {r : Str}
    (h : boolean_literal i = some (b, r)) : r.length ≤ i.length := by
  simp only [boolean_literal] at h
  split at h
  · rename_i rest heq
    obtain ⟨rfl, rfl⟩ := PRes_inj h
    exact ptag_le heq
  · split at h
    · rename_i rest heq
      obtain ⟨rfl, rfl⟩ := PRes_inj h
      exact ptag_le heq
    · simp at h

theorem identifier_le {i : Str} {nm r : Str} (h : identifier i = some (nm, r)) :
    r.length ≤ i.length := by
  cases i with
  | nil => simp [identifier] at h
  | cons a t =>
    simp only [identifier] at h
    split at h
    · obtain ⟨rfl, rfl⟩ := PRes_inj h
      exact length_dropWhile_le _ _
    · simp at h

theorem identifier_head {i : Str} {nm r : Str} (h : identifier i = some (nm, r)) :
    ∃ a t, i = a :: t ∧ isAlphaAscii a = true := by
  cases i with
  | nil => simp [identifier] at h
  | cons a t =>
    simp only [identifier] at h
    split at h
    · exact ⟨a, t, rfl, by assumption⟩
    · simp at h

theorem integer_literal_le {i : Str} {v : Int} {r : Str}
    (h : integer_literal i = some (v, r)) : r.length ≤ i.length := by
  cases i with
  | nil => simp [integer_literal] at h
  | cons a t =>
    simp only [integer_literal] at h
    split at h
    · split at h
      · obtain ⟨rfl, rfl⟩ := PRes_inj h
        exact length_dropWhile_le _ _
      · simp at h
    · simp at h

theorem floatSign_le (i : Str) : (floatSign i).2.length ≤ i.length := by
  cases i with
  | nil => simp [floatSign]
  | cons a t =>
    simp only [floatSign]
    split
    · simp
    · split
      · simp
      · simp

theorem floatExponent_le {i : Str} {e : Int} {r : Str}
    (h : floatExponent i = some (e, r)) : r.length ≤ i.length := by
  cases i with
  | nil => simp [floatExponent] at h
  | cons a t =>
    simp only [floatExponent] at h
    split at h
    · split at h
      · split at h
        · obtain ⟨rfl, rfl⟩ := PRes_inj h
          calc ((floatSign t).2.dropWhile isDigitAscii).length
              ≤ (floatSign t).2.length := length_dropWhile_le _ _
            _ ≤ t.length := floatSign_le t
            _ ≤ (a :: t).length := by simp
        · simp at h
      · simp at h
    · simp at h

theorem withExp_le {neg : Bool} {m : Rat} {rest : Str} {q : Rat} {r : Str}
    (h : withExp neg m rest = some (q, r)) : r.length ≤ rest.length := by
  simp only [withExp] at h
  split at h
  · rename_i e rest' heq
    obtain ⟨rfl, rfl⟩ := PRes_inj h
    exact floatExponent_le heq
  · obtain ⟨rfl, rfl⟩ := PRes_inj h
    exact Nat.le_refl _

theorem float_literal_le {i : Str} {q : Rat} {r : Str}
    (h : float_literal i = some (q, r)) : r.length ≤ i.length := by
  have hsign := floatSign_le i
  simp only [float_literal] at h
  split at h
  · rename_i c r3 heq
    split at h
    · split at h
      · rename_i r4 heq2
        have h1 := withExp_le h
        have h2 : ((floatSign i).2.dropWhile isDigitAscii).length ≤ (floatSign i).2.length :=
          length_dropWhile_le _ _
        have h3 := length_dropWhile_le isDigitAscii r4
        rw [heq2] at h2
        simp only [List.length_cons] at h2
        omega
      · have h1 := withExp_le h
        have h2 : ((floatSign i).2.dropWhile isDigitAscii).length ≤ (floatSign i).2.length :=
          length_dropWhile_le _ _
        omega
    · split at h
      · split at h
        · rename_i hdot d tail
          split at h
          · have h1 := withExp_le h
            have h3 := length_dropWhile_le isDigitAscii (d :: tail)
            have h4 : (floatSign i).2.length = (d :: tail).length + 1 := by rw [heq]; rfl
            simp only [List.length_cons] at h3 h4
            omega
          · simp at h
        · simp at h
      · simp at h
  · simp at h

theorem argument_le {i : Str} {a : Argument} {r : Str}
    (h : argument i = some (a, r)) : r.length ≤ i.length := by
  simp only [argument] at h
  split at h
  · rename_i b rest heq
    obtain ⟨rfl, rfl⟩ := PRes_inj h
    exact boolean_literal_le heq
  · split at h
    · rename_i nm rest heq
      obtain ⟨rfl, rfl⟩ := PRes_inj h
      exact identifier_le heq
    · split at h
      · rename_i v rest heq
        split at h
        · split at h
          · rename_i q' rest' heq'
            obtain ⟨rfl, rfl⟩ := PRes_inj h
            exact float_literal_le heq'
          · split at h
            · rename_i rest' heq'
              obtain ⟨rfl, rfl⟩ := PRes_inj h
              rw [pchar_eq heq']
              simp
            · simp at h
        · obtain ⟨rfl, rfl⟩ := PRes_inj h
          exact integer_literal_le heq
      · split at h
        · rename_i q' rest' heq'
          obtain ⟨rfl, rfl⟩ := PRes_inj h
          exact float_literal_le heq'
        · split at h
          · rename_i rest' heq'
            obtain ⟨rfl, rfl⟩ := PRes_inj h
            rw [pchar_eq heq']
            simp
          · simp at h

theorem argument_separator_lt {i r : Str} (h : argument_separator i = some ((), r)) :
    r.length < i.length := by
  simp only [argument_separator] at h
  split at h
  · rename_i r0 heq
    obtain ⟨-, rfl⟩ := PRes_inj h
    have h1 := pchar_eq heq
    have h2 : (dropSpaces i).length ≤ i.length := dropSpaces_le i
    have h3 : (dropSpaces r0).length ≤ r0.length := dropSpaces_le r0
    have h4 : (dropSpaces i).length = r0.length + 1 := by rw [h1]; rfl
    omega
  · simp at h

theorem argLoop_le : ∀ (fuel : Nat) (i : Str), (argLoop fuel i).2.length ≤ i.length := by
  intro fuel
  induction fuel with
  | zero => intro i; simp [argLoop]
  | succ fuel ih =>
    intro i
    simp only [argLoop]
    split
    · simp
    · rename_i r1 heq
      split
      · simp
      · rename_i a r2 heq2
        have h1 := argument_separator_lt heq
        have h2 := argument_le heq2
        have h3 := ih r2
        simp only
        omega

theorem argument_list_le (i : Str) : (argument_list i).2.length ≤ i.length := by
  simp only [argument_list]
  split
  · simp
  · rename_i a r heq
    have h1 := argument_le heq
    have h2 := argLoop_le r.length r
    simp only
    omega

theorem function_call_le {i : Str} {c : FunctionCall} {r : Str}
    (h : function_call i = some (c, r)) : r.length ≤ i.length := by
  simp only [function_call] at h
  split at h
  · simp at h
  · rename_i nm r1 heq
    have hid := identifier_le heq
    split at h
    · rename_i args rest hattempt
      obtain ⟨rfl, rfl⟩ := PRes_inj h
      -- trace the attempt
      split at hattempt
      · simp at hattempt
      · rename_i r2 heq2
        split at hattempt
        · simp at hattempt
        · rename_i r4 heq4
          obtain ⟨-, rfl⟩ := PRes_inj hattempt
          have h2 := pchar_eq heq2
          have h3 := argument_list_le r2
          have h4 := pchar_eq heq4
          have h5 := dropSpaces_le r4
          have h6 := dropSpaces_le r1
          have h7 : (dropSpaces r1).length = r2.length + 1 := by rw [h2]; rfl
          have h8 : (argument_list r2).2.length = r4.length + 1 := by rw [h4]; rfl
          omega
    · obtain ⟨rfl, rfl⟩ := PRes_inj h
      exact hid

theorem function_call_head_alpha {i : Str} {c : FunctionCall} {r : Str}
    (h : function_call i = some (c, r)) :
    ∃ a t, i = a :: t ∧ isAlphaAscii a = true := by
  simp only [function_call] at h
  split at h
  · simp at h
  · rename_i nm r1 heq
    exact identifier_head heq

theorem pipeSep_lt {i r : Str} (h : pipeSep i = some ((), r)) :
    r.length < i.length := by
  simp only [pipeSep] at h
  split at h
  · rename_i r0 heq
    obtain ⟨-, rfl⟩ := PRes_inj h
    have h1 := pchar_eq heq
    have h2 : (dropSpaces i).length ≤ i.length := dropSpaces_le i
    have h3 : (dropSpaces r0).length ≤ r0.length := dropSpaces_le r0
    have h4 : (dropSpaces i).length = r0.length + 1 := by rw [h1]; rfl
    omega
  · simp at h

theorem pipeLoop_congr :
    ∀ (f g : Nat) (i : Str), i.length ≤ f → i.length ≤ g →
      pipeLoop f i = pipeLoop g i := by
  intro f
  induction f with
  | zero =>
    intro g i hf hg
    have : i = [] := by
      cases i with
      | nil => rfl
      | cons a t => simp at hf
    subst this
    cases g with
    | zero => rfl
    | succ g =>
      simp only [pipeLoop]
      have : pipeSep [] = none := rfl
      rw [this]
  | succ f ih =>
    intro g i hf hg
    cases g with
    | zero =>
      have : i = [] := by
        cases i with
        | nil => rfl
        | cons a t => simp at hg
      subst this
      simp only [pipeLoop]
      have : pipeSep [] = none := rfl
      rw [this]
    | succ g =>
      simp only [pipeLoop]
      split
      · rfl
      · rename_i r1 heq
        split
        · rfl
        · rename_i c r2 heq2
          have h1 := pipeSep_lt heq
          have h2 := function_call_le heq2
          rw [ih g r2 (by omega) (by omega)]

theorem takeWhile_append_stop {p : Char → Bool} {l₁ : Str}
    (h₁ : ∀ c ∈ l₁, p c = true) {x : Char} (hx : p x = false) (l₂ : Str) :
    (l₁ ++ x :: l₂).takeWhile p = l₁ := by
  induction l₁ with
  | nil => simp [List.takeWhile, hx]
  | cons a t ih =>
    have ha : p a = true := h₁ a (by simp)
    show List.takeWhile p (a :: (t ++ x :: l₂)) = a :: t
    simp only [List.takeWhile, ha]
    rw [ih (fun c hc => h₁ c (by simp [hc]))]

theorem dropWhile_append_stop {p : Char → Bool} {l₁ : Str}
    (h₁ : ∀ c ∈ l₁, p c = true) {x : Char} (hx : p x = false) (l₂ : Str) :
    (l₁ ++ x :: l₂).dropWhile p = x :: l₂ := by
  induction l₁ with
  | nil => simp [List.dropWhile, hx]
  | cons a t ih =>
    have ha : p a = true := h₁ a (by simp)
    show List.dropWhile p (a :: (t ++ x :: l₂)) = x :: l₂
    simp only [List.dropWhile, ha]
    exact ih (fun c hc => h₁ c (by simp [hc]))

theorem dropWhile_head_stop {p : Char → Bool} {x : Char} (hx : p x = false) (l : Str) :
    (x :: l).dropWhile p = x :: l := by
  simp [List.dropWhile, hx]

theorem digit_toNat_bounds {c : Char} (h : isDigitAscii c = true) :
    48 ≤ c.toNat ∧ c.toNat ≤ 57 := by
  simpa [isDigitAscii] using h

theorem digit_not_alpha {c : Char} (h : isDigitAscii c = true) :
    isAlphaAscii c = false := by
  have h' := digit_toNat_bounds h
  simp [isAlphaAscii]
  omega

theorem beq_false_of_digit {t c : Char} (ht : isDigitAscii t = false)
    (hc : isDigitAscii c = true) : (t == c) = false := by
  rw [beq_eq_false_iff_ne]
  intro h
  rw [h, hc] at ht
  exact absurd ht (by simp)

theorem digit_not_identChar_iff {c : Char} (h : isDigitAscii c = true) :
    isIdentChar c = true := by
  simp [isIdentChar, isAlphanumericAscii, h]

theorem digit_isDigitOrUnderscore {c : Char} (h : isDigitAscii c = true) :
    isDigitOrUnderscore c = true := by
  simp [isDigitOrUnderscore, h]

theorem digit_ne_underscore {c : Char} (h : isDigitAscii c = true) : c ≠ '_' := by
  intro hc
  rw [hc] at h
  exact absurd h (by decide)

theorem alpha_not_space {c : Char} (h : isAlphaAscii c = true) :
    isSpaceTab c = false := by
  have h1 : c ≠ ' ' := by
    intro hc; rw [hc] at h; exact absurd h (by decide)
  have h2 : c ≠ '\t' := by
    intro hc; rw [hc] at h; exact absurd h (by decide)
  simp [isSpaceTab, h1, h2]

/-- On an input whose head is a decimal digit run followed by `)`, `argument`
takes the integer branch and produces exactly the run's value. -/
theorem argument_digits (idx : Nat) (hidx : idx < 2 ^ 63) (s' : Str) :
    argument (natDigits idx ++ ')' :: s')
      = some (.integerLiteral (idx : Int), ')' :: s') := by
  obtain ⟨d, D', hD⟩ := List.exists_cons_of_ne_nil (natDigits_ne_nil idx)
  have hdigits := natDigits_all_digit idx
  have hd : isDigitAscii d = true := hdigits d (by rw [hD]; simp)
  have hne_t : ('t' == d) = false := beq_false_of_digit (by decide) hd
  have hne_f : ('f' == d) = false := beq_false_of_digit (by decide) hd
  have hbool : boolean_literal (natDigits idx ++ ')' :: s') = none := by
    rw [hD]
    have h1 : (['t', 'r', 'u', 'e'] : Str).isPrefixOf (d :: (D' ++ ')' :: s'))
        = false := by
      simp only [List.isPrefixOf, hne_t, Bool.false_and]
    have h2 : (['f', 'a', 'l', 's', 'e'] : Str).isPrefixOf (d :: (D' ++ ')' :: s'))
        = false := by
      simp only [List.isPrefixOf, hne_f, Bool.false_and]
    simp only [boolean_literal, ptag, List.cons_append, h1, h2]
    simp
  have hident : identifier (natDigits idx ++ ')' :: s') = none := by
    rw [hD]
    show identifier (d :: (D' ++ ')' :: s')) = none
    simp only [identifier]
    rw [digit_not_alpha hd]
    simp
  have htake : (natDigits idx ++ ')' :: s').takeWhile isDigitOrUnderscore
      = natDigits idx :=
    takeWhile_append_stop (fun c hc => digit_isDigitOrUnderscore (hdigits c hc))
      (by decide) s'
  have hdrop : (natDigits idx ++ ')' :: s').dropWhile isDigitOrUnderscore
      = ')' :: s' :=
    dropWhile_append_stop (fun c hc => digit_isDigitOrUnderscore (hdigits c hc))
      (by decide) s'
  have hfilter : (natDigits idx).filter (fun x => x ≠ '_') = natDigits idx := by
    rw [List.filter_eq_self]
    intro c hc
    simp [digit_ne_underscore (hdigits c hc)]
  have hint : integer_literal (natDigits idx ++ ')' :: s')
      = some ((idx : Int), ')' :: s') := by
    rw [hD]
    simp only [List.cons_append, integer_literal]
    rw [show isDigitAscii d = true from hd]
    simp only [if_true]
    rw [← List.cons_append, ← hD, htake, hdrop, hfilter, parse_natDigits]
    rw [if_pos hidx]
  simp only [argument]
  rw [hbool, hident, hint]
  rfl

/-- The argument-list loop stops immediately on an input headed by `)`. -/
theorem argLoop_rparen (fuel : Nat) (s' : Str) :
    argLoop fuel (')' :: s') = ([], ')' :: s') := by
  cases fuel with
  | zero => rfl
  | succ fuel =>
    have hsep : argument_separator (')' :: s') = none := rfl
    simp [argLoop, hsep]

/-- `argument_list` on a digit run followed by `)` yields the single integer
argument. -/
theorem argument_list_digits (idx : Nat) (hidx : idx < 2 ^ 63) (s' : Str) :
    argument_list (natDigits idx ++ ')' :: s')
      = ([.integerLiteral (idx : Int)], ')' :: s') := by
  simp only [argument_list]
  rw [argument_digits idx hidx s']
  simp [argLoop_rparen]

/-- `function_call` on `col(<idx>)` followed by ` | …` parses the `col` call
with the integer argument and stops right before the pipe. -/
theorem function_call_col (idx : Nat) (hidx : idx < 2 ^ 63) (s : Str) :
    function_call ('c' :: 'o' :: 'l' :: '(' :: (natDigits idx ++ ')' :: ' ' :: '|' :: ' ' :: s))
      = some (⟨"col".data, [.integerLiteral (idx : Int)]⟩, '|' :: ' ' :: s) := by
  have hident : identifier
      ('c' :: 'o' :: 'l' :: '(' :: (natDigits idx ++ ')' :: ' ' :: '|' :: ' ' :: s))
      = some ("col".data, '(' :: (natDigits idx ++ ')' :: ' ' :: '|' :: ' ' :: s)) := rfl
  have h1 : pchar '(' (dropSpaces ('(' :: (natDigits idx ++ ')' :: ' ' :: '|' :: ' ' :: s)))
      = some ((), natDigits idx ++ ')' :: ' ' :: '|' :: ' ' :: s) := rfl
  have h2 : pchar ')' (')' :: ' ' :: '|' :: ' ' :: s) = some ((), ' ' :: '|' :: ' ' :: s) := rfl
  have h3 : dropSpaces (' ' :: '|' :: ' ' :: s) = '|' :: ' ' :: s := rfl
  simp only [function_call, hident, h1,
    argument_list_digits idx hidx (' ' :: '|' :: ' ' :: s), h2, h3]

/-- Successful parse of a non-empty pipeline decomposes into a leading
function call and the loop consuming the rest of the input. -/
theorem pipeline_cons_elim {s : Str} {c₁ : FunctionCall} {cs : List FunctionCall}
    (h : pipeline s = some (c₁ :: cs)) :
    ∃ r₁, function_call s = some (c₁, r₁) ∧ pipeLoop r₁.length r₁ = (cs, []) := by
  simp only [pipeline, pipelineRun] at h
  cases hfc : function_call s with
  | none =>
    rw [hfc] at h
    simp only at h
    split at h
    · simp at h
    · simp at h
  | some pr =>
    obtain ⟨c, r⟩ := pr
    rw [hfc] at h
    simp only at h
    split at h
    · rename_i hempty
      injection h with h'
      injection h' with h1 h2
      refine ⟨r, by rw [h1], ?_⟩
      have hsnd : (pipeLoop r.length r).2 = [] := by
        rwa [List.isEmpty_iff] at hempty
      have hfst : (pipeLoop r.length r).1 = cs := h2
      calc pipeLoop r.length r = ((pipeLoop r.length r).1, (pipeLoop r.length r).2) := rfl
        _ = (cs, []) := by rw [hsnd, hfst]
    · simp at h

/-- One-step unfolding of the pipeline loop at positive fuel. -/
theorem pipeLoop_succ (fuel : Nat) (input : Str) :
    pipeLoop (fuel + 1) input =
      match pipeSep input with
      | none => ([], input)
      | some ((), r1) =>
        match function_call r1 with
        | none => ([], input)
        | some (c, r2) => (c :: (pipeLoop fuel r2).1, (pipeLoop fuel r2).2) := rfl

/-- Prefixing a parseable, non-empty pipeline with `col(<idx>) | ` prepends
exactly one `col` call with the integer argument `idx`. -/
theorem pipeline_col_prefix (idx : Nat) (hidx : idx < 2 ^ 63) (s : Str)
    (c₁ : FunctionCall) (cs : List FunctionCall)
    (hs : pipeline s = some (c₁ :: cs)) :
    pipeline ("col(".data ++ natDigits idx ++ ") | ".data ++ s)
      = some (⟨"col".data, [.integerLiteral (idx : Int)]⟩ :: c₁ :: cs) := by
  obtain ⟨r₁, hfc, hloop⟩ := pipeline_cons_elim hs
  obtain ⟨a, t, rfl, ha⟩ := function_call_head_alpha hfc
  have hassoc : "col(".data ++ natDigits idx ++ ") | ".data ++ (a :: t)
      = 'c' :: 'o' :: 'l' :: '(' :: (natDigits idx ++ ')' :: ' ' :: '|' :: ' ' :: a :: t) := by
    simp [show ("col(".data : Str) = ['c', 'o', 'l', '('] from rfl,
      show (") | ".data : Str) = [')', ' ', '|', ' '] from rfl, List.append_assoc]
  rw [hassoc]
  have hsp : pipeSep ('|' :: ' ' :: a :: t) = some ((), a :: t) := by
    simp only [pipeSep]
    have h1 : pchar '|' (dropSpaces ('|' :: ' ' :: a :: t))
        = some ((), ' ' :: a :: t) := rfl
    rw [h1]
    simp only [dropSpaces, List.dropWhile]
    rw [show isSpaceTab ' ' = true from by decide, alpha_not_space ha]
  have hfce := function_call_le hfc
  have hcongr : pipeLoop (t.length + 2) r₁ = pipeLoop r₁.length r₁ := by
    apply pipeLoop_congr
    · simp only [List.length_cons] at hfce
      omega
    · omega
  have hloop2 : pipeLoop ('|' :: ' ' :: a :: t : Str).length ('|' :: ' ' :: a :: t)
      = (c₁ :: cs, []) := by
    show pipeLoop (t.length + 2 + 1) ('|' :: ' ' :: a :: t) = _
    rw [pipeLoop_succ, hsp]
    simp only [hfc, hcongr, hloop]
  have hrun : pipelineRun
      ('c' :: 'o' :: 'l' :: '(' :: (natDigits idx ++ ')' :: ' ' :: '|' :: ' ' :: a :: t))
      = (⟨"col".data, [.integerLiteral (idx : Int)]⟩ :: c₁ :: cs, []) := by
    simp only [pipelineRun, function_call_col idx hidx (a :: t), hloop2]
  simp [pipeline, hrun]

end Xan.Parser

namespace Xan

theorem filterMap_eq_map_of_forall {α β : Type} (l : List α) (F : α → Option β)
    (G : α → β) (h : ∀ x ∈ l, F x = some (G x)) : l.filterMap F = l.map G := by
  induction l with
  | nil => rfl
  | cons x t ih =>
    rw [List.filterMap_cons, h x (by simp), List.map_cons,
      ih (fun y hy => h y (by simp [hy]))]

theorem find?_tag_map {α : Type} (f : Nat → α) (σ : List Nat) (i : Nat)
    (hi : i ∈ σ) :
    (σ.map (fun j => (j, f j))).find? (fun x => x.1 == i) = some (i, f i) := by
  induction σ with
  | nil => simp at hi
  | cons j t ih =>
    by_cases hj : j = i
    · subst hj
      simp [List.find?]
    · rw [List.map_cons, List.find?_cons_of_neg _ (by simp [hj])]
      refine ih ?_
      cases List.mem_cons.mp hi with
      | inl h => omega
      | inr h => exact h

theorem resequence_perm {α : Type} (n : Nat) (f : Nat → α) (σ : List Nat)
    (hσ : σ.Perm (List.range n)) :
    resequence n (σ.map (fun j => (j, f j)))
      = (List.range n).map (fun i => (i, f i)) := by
  apply filterMap_eq_map_of_forall
  intro i hi
  exact find?_tag_map f σ i (hσ.mem_iff.mpr hi)

theorem run_moonblade_seq_go_eq (ser : Value → Str) (args : MoonbladeCmdArgs)
    (replace : Option Nat) (prog : Nat → Record → Except Str Value)
    (l : List Record) :
    ∀ k, run_moonblade_seq_go ser args replace prog k l
      = runLoop ser args replace
          ((List.range l.length).map
            (fun i => (k + i, l.getD i [], prog (k + i) (l.getD i [])))) := by
  induction l with
  | nil => intro k; rfl
  | cons x xs ih =>
    intro k
    have hr : List.range (x :: xs).length
        = 0 :: (List.range xs.length).map Nat.succ := by
      simp [List.range_succ_eq_map]
    rw [hr]
    simp only [List.map_cons, Nat.add_zero, List.getD_cons_zero]
    have htail : ((List.range xs.length).map Nat.succ).map
          (fun i => (k + i, (x :: xs).getD i [], prog (k + i) ((x :: xs).getD i [])))
        = (List.range xs.length).map
          (fun i => (k + 1 + i, xs.getD i [], prog (k + 1 + i) (xs.getD i []))) := by
      rw [List.map_map]
      apply List.map_congr_left
      intro i hi
      show (k + Nat.succ i, (x :: xs).getD (Nat.succ i) [],
        prog (k + Nat.succ i) ((x :: xs).getD (Nat.succ i) [])) = _
      have harith : k + Nat.succ i = k + 1 + i := by omega
      rw [harith, List.getD_cons_succ]
    rw [htail]
    cases h : handle_eval_result ser args k x (prog k x) replace with
    | mk res logs =>
      cases res with
      | error e => simp [run_moonblade_seq_go, runLoop, h]
      | ok recs => simp [run_moonblade_seq_go, runLoop, h, ih (k + 1)]

theorem run_moonblade_seq_eq (ser : Value → Str) (args : MoonbladeCmdArgs)
    (replace : Option Nat) (prog : Nat → Record → Except Str Value)
    (records : List Record) :
    run_moonblade_seq ser args replace prog records
      = runLoop ser args replace
          ((List.range records.length).map (jobResult prog records)) := by
  unfold run_moonblade_seq
  rw [run_moonblade_seq_go_eq]
  congr 1
  apply List.map_congr_left
  intro i hi
  simp [jobResult]

end Xan

section SanityChecks

open Xan

example : Fns.get [.list [.str "a".data, .str "b".data, .str "c".data], .int (-1)]
    = .ok (.str "c".data) := by rfl

example : Fns.get [.list [.str "a".data, .str "b".data, .str "c".data], .int (-5)]
    = .ok .vnone := by rfl

example : Fns.slice [.str "hello".data, .int (-3)] = .ok (.str "llo".data) := by rfl

example : Fns.slice [.str "hello".data, .int (-3), .int 5] = .ok (.str [])
    := by rfl

example : Fns.count [.str "abc".data, .str "a.c".data] = .ok (.int 0) := by rfl

example : Fns.contains [.str "abc".data, .regex "a.c".data false]
    = .error (.cast "regex".data "string".data) := by rfl

example : Fns.trim [.str "  a ".data] = .ok (.str "a".data) := by rfl

example : Fns.upper [.str "a".data] = .ok (.str "A".data) := by rfl

open Xan.Parser in
example : pipeline "trim(name) | len  (_)".data
    = some [⟨"trim".data, [.identifier "name".data]⟩, ⟨"len".data, [.underscore]⟩] := by rfl

open Xan.Parser in
example : pipeline "trim(name)|len  (_)".data
    = some [⟨"trim".data, [.identifier "name".data]⟩, ⟨"len".data, [.underscore]⟩] := by rfl

open Xan.Parser in
example : pipeline "trim(name) | len(_)  ".data
    = some [⟨"trim".data, [.identifier "name".data]⟩, ⟨"len".data, [.underscore]⟩] := by rfl

open Xan.Parser in
example : pipeline "trim | len".data
    = some [⟨"trim".data, [.underscore]⟩, ⟨"len".data, [.underscore]⟩] := by rfl

open Xan.Parser in
example : pipeline "test |".data = none := by rfl

open Xan.Parser in
example : function_call "trim()".data = some (⟨"trim".data, []⟩, []) := by rfl

open Xan.Parser in
example : argument_list "true, _, col0".data
    = ([.booleanLiteral true, .underscore, .identifier "col0".data], []) := by rfl

open Xan.Parser in
example : pipeline "col(2) | trim | upper".data
    = some [⟨"col".data, [.integerLiteral 2]⟩, ⟨"trim".data, [.underscore]⟩,
        ⟨"upper".data, [.underscore]⟩] := by rfl

end SanityChecks

namespace Xan

theorem find?_append_none {α : Type} {p : α → Bool} {l₁ l₂ : List α}
    (h : l₁.find? p = none) : (l₁ ++ l₂).find? p = l₂.find? p := by
  induction l₁ with
  | nil => rfl
  | cons a t ih =>
    cases hpa : p a with
    | true =>
      rw [List.find?_cons_of_pos _ hpa] at h
      simp at h
    | false =>
      rw [List.find?_cons_of_neg _ (by simp [hpa])] at h
      rw [List.cons_append, List.find?_cons_of_neg _ (by simp [hpa])]
      exact ih h

theorem find?_map_replace {k : Nat × Nat} {e : Edge}
    {es : List ((Nat × Nat) × Edge)} {old : (Nat × Nat) × Edge}
    (h : es.find? (fun p => p.1 = k) = some old) :
    (es.map (fun p => if p.1 = k then (k, e) else p)).find? (fun p => p.1 = k)
      = some (k, e) := by
  induction es with
  | nil => simp at h
  | cons q t ih =>
    by_cases hq : q.1 = k
    · rw [List.map_cons, if_pos hq, List.find?_cons_of_pos _ (by simp)]
    · rw [List.find?_cons_of_neg _ (by simp [hq])] at h
      rw [List.map_cons, if_neg hq, List.find?_cons_of_neg _ (by simp [hq])]
      exact ih h

theorem edgesGet_insert_self (es : List ((Nat × Nat) × Edge)) (k : Nat × Nat)
    (e : Edge) : edgesGet (edgesInsert es k e).2 k = some e := by
  unfold edgesInsert edgesGet
  cases h : es.find? (fun p => p.1 = k) with
  | none =>
    simp only
    rw [find?_append_none h]
    simp [List.find?]
  | some old =>
    simp only
    rw [find?_map_replace h]
    rfl

theorem edgesInsert_length_found {es : List ((Nat × Nat) × Edge)}
    {k : Nat × Nat} {old : (Nat × Nat) × Edge} (e : Edge)
    (h : es.find? (fun p => p.1 = k) = some old) :
    (edgesInsert es k e).2.length = es.length := by
  unfold edgesInsert
  rw [h]
  simp

theorem edgesInsert_fst_isSome (es : List ((Nat × Nat) × Edge)) (k : Nat × Nat)
    (e : Edge) :
    (edgesInsert es k e).1.isSome = (es.find? (fun p => p.1 = k)).isSome := by
  unfold edgesInsert
  cases h : es.find? (fun p => p.1 = k) <;> simp

/-- Elimination principle for a successful `add_edge`: both canonical
endpoints resolve in the node table and the result is the builder with the
updated options, edge table and union-find. -/
theorem add_edge_some_elim {b : GraphBuilder} {source target : Nat}
    {a : Attributes} {u : Bool} {b' : GraphBuilder}
    (h : b.add_edge source target a u = some b') :
    ∃ sn tn,
      b.nodes.get? (add_edge_key source target u).1 = some sn ∧
      b.nodes.get? (add_edge_key source target u).2 = some tn ∧
      b' = { b with
        options :=
          if (edgesInsert b.edges (add_edge_key source target u)
              ⟨sn.2.key, tn.2.key, u, a⟩).1.isSome
          then { add_edge_options b source target with multi := true }
          else add_edge_options b source target,
        edges := (edgesInsert b.edges (add_edge_key source target u)
          ⟨sn.2.key, tn.2.key, u, a⟩).2,
        disjoint_sets := b.disjoint_sets.map
          (fun uf => uf.union (add_edge_key source target u).1
            (add_edge_key source target u).2) } := by
  simp only [GraphBuilder.add_edge] at h
  split at h
  · rename_i sn tn hsn htn
    refine ⟨sn, tn, hsn, htn, ?_⟩
    injection h with h'
    exact h'.symm
  · simp at h

theorem add_edge_key_self (s : Nat) (u : Bool) : add_edge_key s s u = (s, s) := by
  simp [add_edge_key]

theorem add_edge_key_symm {x y : Nat} (hxy : x ≠ y) :
    add_edge_key y x true = add_edge_key x y true := by
  unfold add_edge_key
  rcases Nat.lt_or_ge x y with hlt | hge
  · rw [if_neg (by omega), if_pos (by simp; omega), if_neg hxy,
      if_neg (by simp; omega)]
  · have hlt : y < x := by omega
    rw [if_neg (by omega), if_neg (by simp; omega), if_neg hxy,
      if_pos (by simp; omega)]

theorem add_edge_options_allow_self_loops (b : GraphBuilder) (s : Nat) :
    (add_edge_options b s s).allow_self_loops = true := by
  simp [add_edge_options]

/-- C3: `GraphBuilder::add_edge` — (1) a self-loop sets the graph's
self-loop flag; (2) adding `(x, y)` undirected and then `(y, x)` undirected
collapses to the same canonical `(min, max)` key, so the reciprocal pair
stores no additional edge; (3) inserting over an already-present canonical
key sets the multigraph flag and the newly built edge replaces the stored
one (its attributes and undirected flag are the latest ones); (4) when
component tracking is enabled, a union of the two canonical endpoint ids is
performed whether or not the edge was deduplicated. -/
theorem add_edge_contract :
    (∀ (b : GraphBuilder) (s : Nat) (a : Attributes) (u : Bool) b',
      b.add_edge s s a u = some b' → b'.options.allow_self_loops = true)
    ∧ (∀ (b : GraphBuilder) (x y : Nat) (a₁ a₂ : Attributes) b₁ b₂, x ≠ y →
      b.add_edge x y a₁ true = some b₁ →
      b₁.add_edge y x a₂ true = some b₂ →
      b₂.edges.length = b₁.edges.length)
    ∧ (∀ (b : GraphBuilder) (s t : Nat) (a : Attributes) (u : Bool) b',
      b.add_edge s t a u = some b' →
      (edgesGet b.edges (add_edge_key s t u)).isSome = true →
      b'.options.multi = true ∧
        ∃ e, edgesGet b'.edges (add_edge_key s t u) = some e ∧
          e.attributes = a ∧ e.undirected = u)
    ∧ (∀ (b : GraphBuilder) (s t : Nat) (a : Attributes) (u : Bool) b',
      b.add_edge s t a u = some b' →
      b'.disjoint_sets = b.disjoint_sets.map
        (fun uf => uf.union (add_edge_key s t u).1 (add_edge_key s t u).2)) := by
  refine ⟨?_, ?_, ?_, ?_⟩
  · intro b s a u b' h
    obtain ⟨sn, tn, hsn, htn, rfl⟩ := add_edge_some_elim h
    split
    · exact add_edge_options_allow_self_loops b s
    · exact add_edge_options_allow_self_loops b s
  · intro b x y a₁ a₂ b₁ b₂ hxy h₁ h₂
    obtain ⟨sn₁, tn₁, hsn₁, htn₁, rfl⟩ := add_edge_some_elim h₁
    obtain ⟨sn₂, tn₂, hsn₂, htn₂, rfl⟩ := add_edge_some_elim h₂
    simp only
    rw [add_edge_key_symm hxy]
    have hget := edgesGet_insert_self b.edges (add_edge_key x y true)
      ⟨sn₁.2.key, tn₁.2.key, true, a₁⟩
    unfold edgesGet at hget
    cases hfind : (edgesInsert b.edges (add_edge_key x y true)
        ⟨sn₁.2.key, tn₁.2.key, true, a₁⟩).2.find?
        (fun p => p.1 = add_edge_key x y true) with
    | none => rw [hfind] at hget; simp at hget
    | some old => exact edgesInsert_length_found _ hfind
  · intro b s t a u b' h hpresent
    obtain ⟨sn, tn, hsn, htn, rfl⟩ := add_edge_some_elim h
    have hfind : (b.edges.find? (fun p => p.1 = add_edge_key s t u)).isSome
        = true := by
      unfold edgesGet at hpresent
      cases hf : b.edges.find? (fun p => p.1 = add_edge_key s t u) with
      | none => rw [hf] at hpresent; simp at hpresent
      | some _ => simp
    constructor
    · rw [if_pos (by rw [edgesInsert_fst_isSome]; exact hfind)]
    · exact ⟨⟨sn.2.key, tn.2.key, u, a⟩,
        edgesGet_insert_self b.edges (add_edge_key s t u) _, rfl, rfl⟩
  · intro b s t a u b' h
    obtain ⟨sn, tn, hsn, htn, rfl⟩ := add_edge_some_elim h
    rfl

/-- Witness for `add_edge_contract` on a concrete two-node builder with
component tracking enabled. -/
theorem add_edge_contract_witness :
    ((twoNodeBuilder.add_edge 0 0 [] false).getD {}).options.allow_self_loops = true
    ∧ (0 : Nat) ≠ 1
    ∧ ((twoNodeEdge01.add_edge 1 0 [] true).getD {}).edges.length
        = twoNodeEdge01.edges.length
    ∧ (edgesGet twoNodeEdge01.edges (add_edge_key 0 1 true)).isSome = true
    ∧ ((twoNodeEdge01.add_edge 0 1 [("w".data, .int 1)] true).getD {}).options.multi
        = true
    ∧ ((twoNodeEdge01.add_edge 0 1 [] true).getD {}).disjoint_sets
        = twoNodeEdge01.disjoint_sets.map
            (fun uf => uf.union (add_edge_key 0 1 true).1 (add_edge_key 0 1 true).2) :=
  ⟨add_edge_contract.1 twoNodeBuilder 0 [] false _ rfl,
   by decide,
   add_edge_contract.2.1 twoNodeBuilder 0 1 [] [] twoNodeEdge01 _ (by decide) rfl rfl,
   by decide,
   (add_edge_contract.2.2.1 twoNodeEdge01 0 1 [("w".data, .int 1)] true _ rfl
     (by decide)).1,
   add_edge_contract.2.2.2 twoNodeEdge01 0 1 [] true _ rfl⟩

end Xan

namespace Xan

theorem findIdx?_lt_add {α : Type} {p : α → Bool} :
    ∀ (l : List α) (i j : Nat), l.findIdx? p i = some j → j < i + l.length := by
  intro l
  induction l with
  | nil => intro i j h; simp [List.findIdx?] at h
  | cons x xs ih =>
    intro i j h
    rw [List.findIdx?_cons] at h
    split at h
    · injection h with h'
      simp only [List.length_cons]
      omega
    · have := ih (i + 1) j h
      simp only [List.length_cons]
      omega

theorem findIdx?_lt_length {α : Type} {p : α → Bool} {l : List α} {j : Nat}
    (h : l.findIdx? p = some j) : j < l.length := by
  have := findIdx?_lt_add l 0 j h
  omega

theorem add_node_id_lt (b : GraphBuilder) (k : Str) (a : Attributes) :
    (b.add_node k a).1 < (b.add_node k a).2.nodes.length := by
  unfold GraphBuilder.add_node
  cases h : b.nodes.findIdx? (fun p => p.1 = k) with
  | some j =>
    simp only
    exact findIdx?_lt_length h
  | none => simp

theorem add_node_nodes_mono (b : GraphBuilder) (k : Str) (a : Attributes) :
    b.nodes.length ≤ (b.add_node k a).2.nodes.length := by
  unfold GraphBuilder.add_node
  cases h : b.nodes.findIdx? (fun p => p.1 = k) <;> simp

theorem add_node_id_pos (b : GraphBuilder) (k : Str) (a : Attributes) :
    (b.add_node k a).2.nodes.findIdx? (fun p => p.1 = k)
      = some (b.add_node k a).1 := by
  unfold GraphBuilder.add_node
  cases h : b.nodes.findIdx? (fun p => p.1 = k) with
  | some j => simpa using h
  | none =>
    simp only
    rw [List.findIdx?_append, h]
    simp [List.findIdx?]

theorem add_edge_key_cases (s t : Nat) (u : Bool) :
    ((add_edge_key s t u).1 = s ∨ (add_edge_key s t u).1 = t)
    ∧ ((add_edge_key s t u).2 = s ∨ (add_edge_key s t u).2 = t) := by
  unfold add_edge_key
  split
  · simp
  · split
    · simp
    · simp

theorem add_edge_some_of_lt {b : GraphBuilder} {s t : Nat}
    (a : Attributes) (u : Bool)
    (hs : s < b.nodes.length) (ht : t < b.nodes.length) :
    (b.add_edge s t a u).isSome = true := by
  have hk := add_edge_key_cases s t u
  have h1 : (add_edge_key s t u).1 < b.nodes.length := by
    rcases hk.1 with h | h <;> omega
  have h2 : (add_edge_key s t u).2 < b.nodes.length := by
    rcases hk.2 with h | h <;> omega
  simp only [GraphBuilder.add_edge]
  cases hg1 : b.nodes.get? (add_edge_key s t u).1 with
  | none =>
    rw [List.get?_eq_none] at hg1
    omega
  | some sn =>
    cases hg2 : b.nodes.get? (add_edge_key s t u).2 with
    | none =>
      rw [List.get?_eq_none] at hg2
      omega
    | some tn => simp

theorem add_edge_nodes_eq {b : GraphBuilder} {s t : Nat} {a : Attributes}
    {u : Bool} {b' : GraphBuilder} (h : b.add_edge s t a u = some b') :
    b'.nodes = b.nodes := by
  obtain ⟨sn, tn, hsn, htn, rfl⟩ := add_edge_some_elim h
  rfl

theorem trace_runs_safe :
    ∀ (ops : List GOp) (b : GraphBuilder) (ids : List Nat),
      (∀ id ∈ ids, id < b.nodes.length) →
      traceHygienic b ids ops = true →
      (runTrace b ops).isSome = true := by
  intro ops
  induction ops with
  | nil => intro b ids _ _; simp [runTrace]
  | cons op rest ih =>
    intro b ids hinv hhyg
    cases op with
    | node k a =>
      simp only [traceHygienic] at hhyg
      simp only [runTrace]
      refine ih _ ((b.add_node k a).1 :: ids) ?_ hhyg
      intro id hid
      cases List.mem_cons.mp hid with
      | inl h => rw [h]; exact add_node_id_lt b k a
      | inr h => exact Nat.lt_of_lt_of_le (hinv id h) (add_node_nodes_mono b k a)
    | edge s t a u =>
      simp only [traceHygienic, Bool.and_eq_true] at hhyg
      obtain ⟨⟨hs, ht⟩, hrest⟩ := hhyg
      have hs' : s < b.nodes.length := hinv s (List.mem_of_elem_eq_true hs)
      have ht' : t < b.nodes.length := hinv t (List.mem_of_elem_eq_true ht)
      obtain ⟨b', hb'⟩ := Option.isSome_iff_exists.mp (add_edge_some_of_lt a u hs' ht')
      simp only [runTrace]
      rw [hb']
      rw [hb'] at hrest
      simp only [Option.getD_some] at hrest
      refine ih b' ids ?_ hrest
      intro id hid
      rw [add_edge_nodes_eq hb']
      exact hinv id hid

/-- C10: id hygiene makes the `unwrap`s inside `add_edge` unreachable —
`add_node` always returns an id strictly below the resulting node count,
equal to the key's position in the insertion-ordered node table; the node
count never decreases and `add_edge` leaves the node table untouched; hence
replaying any trace whose `add_edge` arguments were all previously returned
by `add_node` never reaches the `none` (panic) case. -/
theorem add_edge_unwrap_safety :
    (∀ (b : GraphBuilder) (k : Str) (a : Attributes),
      (b.add_node k a).1 < (b.add_node k a).2.nodes.length
      ∧ (b.add_node k a).2.nodes.findIdx? (fun p => p.1 = k)
          = some (b.add_node k a).1
      ∧ b.nodes.length ≤ (b.add_node k a).2.nodes.length)
    ∧ (∀ (b : GraphBuilder) (s t : Nat) (a : Attributes) (u : Bool) b',
      b.add_edge s t a u = some b' → b'.nodes = b.nodes)
    ∧ (∀ ops : List GOp,
      traceHygienic {} [] ops = true → (runTrace {} ops).isSome = true) := by
  refine ⟨fun b k a => ⟨add_node_id_lt b k a, add_node_id_pos b k a,
      add_node_nodes_mono b k a⟩,
    fun b s t a u b' h => add_edge_nodes_eq h, fun ops h => ?_⟩
  exact trace_runs_safe ops {} [] (by intro id hid; simp at hid) h

/-- Witness for `add_edge_unwrap_safety` on a concrete hygienic trace. -/
theorem add_edge_unwrap_safety_witness :
    traceHygienic {} [] [.node "a".data [], .node "b".data [],
        .edge 0 1 [] false, .edge 1 0 [] true] = true
    ∧ (runTrace {} [.node "a".data [], .node "b".data [],
        .edge 0 1 [] false, .edge 1 0 [] true]).isSome = true
    ∧ (GraphBuilder.add_node {} "a".data []).1
        < (GraphBuilder.add_node {} "a".data []).2.nodes.length :=
  ⟨by rfl,
   add_edge_unwrap_safety.2.2 [.node "a".data [], .node "b".data [],
     .edge 0 1 [] false, .edge 1 0 [] true] (by rfl),
   (add_edge_unwrap_safety.1 {} "a".data []).1⟩

end Xan

namespace Xan

/-- C2: the dispatcher exits 0 on success and on a broken output pipe (with
no message printed); a CSV structural error, any other I/O error, and any
message-carrying error print the message and exit with the nonzero code 1. -/
theorem exit_code_contract :
    ∀ docoptExit : Str → Nat × List Str,
      main_exit docoptExit (.ok ()) = (0, [])
      ∧ (∀ msg, main_exit docoptExit (.error (.io .brokenPipe msg)) = (0, []))
      ∧ (∀ e, main_exit docoptExit (.error (.csv e)) = (1, [e]))
      ∧ (∀ kind msg, kind ≠ IOErrorKind.brokenPipe →
          main_exit docoptExit (.error (.io kind msg)) = (1, [msg]))
      ∧ (∀ msg, main_exit docoptExit (.error (.other msg)) = (1, [msg]))
      ∧ (1 : Nat) ≠ 0 := by
  intro d
  refine ⟨rfl, fun msg => by simp [main_exit], fun e => rfl,
    fun kind msg h => by simp [main_exit, h], fun msg => rfl, by decide⟩

/-- Witness for `exit_code_contract`. -/
theorem exit_code_contract_witness :
    IOErrorKind.notFound ≠ IOErrorKind.brokenPipe
    ∧ main_exit (fun _ => (2, [])) (.error (.io .notFound "x".data))
        = (1, ["x".data]) :=
  ⟨by decide,
   (exit_code_contract (fun _ => (2, []))).2.2.2.1 .notFound "x".data (by decide)⟩

/-- C1: for every input, serialization, runner configuration, row program
and worker completion order, the parallel row loop — which tags each row
with its sequential read-order index before dispatch and resequences
results into input order before writing — produces exactly the output of
the sequential loop: the same emitted records in the same order, the same
diagnostic lines, and the same abort status. -/
theorem parallel_map_preserves_order
    (ser : Value → Str) (args : MoonbladeCmdArgs) (replace : Option Nat)
    (prog : Nat → Record → Except Str Value) (records : List Record)
    (σ : List Nat) (hσ : σ.Perm (List.range records.length)) :
    run_moonblade_par ser args replace prog records σ
      = run_moonblade_seq ser args replace prog records := by
  unfold run_moonblade_par
  have hjob : σ.map (jobResult prog records)
      = σ.map (fun j => (j, (records.getD j [], prog j (records.getD j [])))) := rfl
  rw [hjob, resequence_perm records.length _ σ hσ, run_moonblade_seq_eq]
  rfl

/-- Witness for `parallel_map_preserves_order` with workers finishing in
reverse order. -/
theorem parallel_map_preserves_order_witness :
    List.Perm [1, 0] (List.range 2)
    ∧ run_moonblade_par (fun _ => "v".data) {} none
        (fun i _ => .ok (.int i)) [["a".data], ["b".data]] [1, 0]
      = run_moonblade_seq (fun _ => "v".data) {} none
        (fun i _ => .ok (.int i)) [["a".data], ["b".data]] :=
  ⟨by decide,
   parallel_map_preserves_order (fun _ => "v".data) {} none
     (fun i _ => .ok (.int i)) [["a".data], ["b".data]] [1, 0] (by decide)⟩

/-- C7: `get` accepts no third default argument — a three-argument call is
an arity error rather than returning the default, and an out-of-range
two-argument call yields absent, never a default. -/
theorem get_ignores_default_argument :
    Fns.get [.list [.str "a".data, .str "b".data, .str "c".data], .int 5,
        .str "d".data]
      = .error (.invalidArity 2 3)
    ∧ Fns.get [.list [.str "a".data, .str "b".data, .str "c".data], .int 5]
      = .ok .vnone :=
  ⟨rfl, rfl⟩

/-- C8: `contains` and `count` are literal substring tests — a regex value
as the pattern is a cast error, and regex syntax in a string pattern is
matched literally (zero matches of `a.c` in `abc`), not as a regular
expression. -/
theorem contains_count_literal_only :
    Fns.contains [.str "abc".data, .regex "a.c".data false]
      = .error (.cast "regex".data "string".data)
    ∧ Fns.count [.str "abc".data, .str "a.c".data] = .ok (.int 0)
    ∧ strContains "abc".data "a.c".data = false :=
  ⟨rfl, rfl, rfl⟩

/-- C9 counterexample: sentence/paragraph modes do not ignore `--ngrams`
and `--token-type` — validation rejects them with a fatal error. -/
theorem tokenize_sentence_mode_rejects_options :
    TokenizeArgs.validate { cmd_sentences := true, flag_ngrams := some "2".data }
      = .error "--ngrams cannot work with paragraphs nor sentences!".data
    ∧ TokenizeArgs.validate
        { cmd_paragraphs := true, flag_token_type := some "t".data }
      = .error "-T,--token-type cannot work with paragraphs nor sentences!".data :=
  ⟨rfl, rfl⟩

/-- C9 (amended): sentence/paragraph tokenization emits exactly one output
row per unit and never consults the word-tokenizer options (`--keep`,
`--drop` and the rest of the word pipeline are ignored, as the formulas
mention only the external splitters); `--ngrams` and `--token-type` are
however rejected at validation in these modes rather than ignored, and
validation passes when they are absent. -/
theorem tokenize_unit_modes_semantics :
    (∀ a : TokenizeArgs, (a.cmd_sentences || a.cmd_paragraphs) = true →
      a.flag_ngrams = none → a.flag_token_type = none → a.validate = .ok ())
    ∧ (∀ (splitP splitS : Str → List Str)
        (wordTokens : TokenizeArgs → Str → List (Str × WordTokenKind))
        (a : TokenizeArgs) (s : Str), a.cmd_paragraphs = true →
        tokenize_cell splitP splitS wordTokens a s
          = (splitP s).map (fun p => (p, .word)))
    ∧ (∀ (splitP splitS : Str → List Str)
        (wordTokens : TokenizeArgs → Str → List (Str × WordTokenKind))
        (a : TokenizeArgs) (s : Str), a.cmd_sentences = true →
        a.cmd_paragraphs = false →
        tokenize_cell splitP splitS wordTokens a s
          = (splitS s).map (fun p => (p, .word)))
    ∧ (∀ (a : TokenizeArgs) (col : Nat) (record : Record)
        (tokens : List (Str × WordTokenKind)) (sep : Str),
        (a.cmd_paragraphs || a.cmd_sentences) = true →
        (write_tokens a col record tokens sep).length = tokens.length) := by
  refine ⟨?_, ?_, ?_, ?_⟩
  · intro a h hng htt
    unfold TokenizeArgs.validate
    rw [if_pos h]
    simp [hng, htt]
  · intro splitP splitS wordTokens a s hp
    simp [tokenize_cell, hp]
  · intro splitP splitS wordTokens a s hs hp
    simp [tokenize_cell, hs, hp]
  · intro a col record tokens sep h
    unfold write_tokens
    rw [if_pos h]
    simp

/-- Witness for `tokenize_unit_modes_semantics` in sentence mode. -/
theorem tokenize_unit_modes_semantics_witness :
    TokenizeArgs.validate { cmd_sentences := true } = .ok ()
    ∧ tokenize_cell (fun _ => []) (fun s => [s]) (fun _ _ => [])
        { cmd_sentences := true } "hi".data
      = [("hi".data, WordTokenKind.word)]
    ∧ (write_tokens { cmd_sentences := true } 0 ["x".data]
        [("u".data, .word), ("v".data, .word)] " ".data).length = 2 :=
  ⟨tokenize_unit_modes_semantics.1 { cmd_sentences := true } rfl rfl rfl,
   by
     rw [tokenize_unit_modes_semantics.2.2.1 (fun _ => []) (fun s => [s])
       (fun _ _ => []) { cmd_sentences := true } "hi".data rfl rfl]
     rfl,
   (tokenize_unit_modes_semantics.2.2.2 { cmd_sentences := true } 0 ["x".data]
     [("u".data, .word), ("v".data, .word)] " ".data rfl).trans rfl⟩

end Xan

namespace Xan

/-- On an all-ASCII string the UTF-8 byte length coincides with the
character count. -/
theorem utf8Len_ascii (s : Str) (h : ∀ c ∈ s, c.utf8Size = 1) :
    utf8Len s = s.length := by
  unfold utf8Len
  induction s with
  | nil => rfl
  | cons c t ih =>
    have hc := h c (by simp)
    have ht := ih (fun x hx => h x (by simp [hx]))
    unfold utf8Len at ht
    simp [List.map_cons, List.sum_cons, hc, ht]
    omega

/-- C4 counterexample: with an explicit end argument, a negative `slice`
start does *not* count from the end — it yields the empty string outright
(`slice("hello", -3, 5)` is `""`, not `"llo"`); and for a non-ASCII string,
a negative `get` index is offset by the *byte* length while indexing is by
characters, so `get("é", -1)` is absent instead of the last character. -/
theorem slice_negative_start_with_end_counterexample :
    Fns.slice [.str "hello".data, .int (-3), .int 5] = .ok (.str [])
    ∧ "hello".data.drop 2 ≠ ([] : Str)
    ∧ Fns.get [.str ['é'], .int (-1)] = .ok .vnone
    ∧ Value.vnone ≠ Value.str ['é'] :=
  ⟨rfl, by decide, rfl, fun h => Value.noConfusion h⟩

/-- C4 (amended): for `get`, a negative index is offset by the list length
(the *byte* length for strings, which equals the character count only when
the string is all-ASCII), and an index still negative after the adjustment
yields absent; for `slice` *without* an end argument, a negative start is
offset by the character count and clamped at zero; with an end argument a
negative start yields the empty string outright.  The claim's three
examples hold as stated. -/
theorem negative_indexing_amended :
    (∀ (l : List Value) (i : Int), i < 0 → 0 ≤ (l.length : Int) + i →
      Fns.get [.list l, .int i]
        = .ok ((l.get? ((l.length : Int) + i).toNat).getD .vnone))
    ∧ (∀ (l : List Value) (i : Int), (l.length : Int) + i < 0 →
      Fns.get [.list l, .int i] = .ok .vnone)
    ∧ (∀ (s : Str) (i : Int), (∀ c ∈ s, c.utf8Size = 1) → i < 0 →
      0 ≤ (s.length : Int) + i →
      Fns.get [.str s, .int i]
        = .ok (charOptValue (s.get? ((s.length : Int) + i).toNat)))
    ∧ (∀ (s : Str) (i : Int), (∀ c ∈ s, c.utf8Size = 1) →
      (s.length : Int) + i < 0 →
      Fns.get [.str s, .int i] = .ok .vnone)
    ∧ (∀ (s : Str) (i : Int), i < 0 →
      Fns.slice [.str s, .int i]
        = .ok (.str (s.drop (max 0 ((s.length : Int) + i)).toNat)))
    ∧ (∀ (s : Str) (i hi : Int), i < 0 →
      Fns.slice [.str s, .int i, .int hi] = .ok (.str []))
    ∧ Fns.get [.list [.str "a".data, .str "b".data, .str "c".data], .int (-1)]
        = .ok (.str "c".data)
    ∧ Fns.get [.list [.str "a".data, .str "b".data, .str "c".data], .int (-5)]
        = .ok .vnone
    ∧ Fns.slice [.str "hello".data, .int (-3)] = .ok (.str "llo".data) := by
  refine ⟨?_, ?_, ?_, ?_, ?_, ?_, rfl, rfl, rfl⟩
  · intro l i hneg hin
    show (if (if i < 0 then (l.length : Int) + i else i) < 0 then
            (Except.ok Value.vnone : FunctionResult)
          else Except.ok ((l.get?
            (if i < 0 then (l.length : Int) + i else i).toNat).getD Value.vnone))
        = _
    rw [if_pos hneg, if_neg (show ¬ ((l.length : Int) + i < 0) by omega)]
  · intro l i hrem
    have hneg : i < 0 := by
      have := Int.ofNat_nonneg l.length
      omega
    show (if (if i < 0 then (l.length : Int) + i else i) < 0 then
            (Except.ok Value.vnone : FunctionResult)
          else Except.ok ((l.get?
            (if i < 0 then (l.length : Int) + i else i).toNat).getD Value.vnone))
        = _
    rw [if_pos hneg, if_pos hrem]
  · intro s i hascii hneg hin
    show (if (if i < 0 then (utf8Len s : Int) + i else i) < 0 then
            (Except.ok Value.vnone : FunctionResult)
          else Except.ok (charOptValue (s.get?
            (if i < 0 then (utf8Len s : Int) + i else i).toNat)))
        = _
    rw [utf8Len_ascii s hascii, if_pos hneg,
      if_neg (show ¬ ((s.length : Int) + i < 0) by omega)]
  · intro s i hascii hrem
    have hneg : i < 0 := by
      have := Int.ofNat_nonneg s.length
      omega
    show (if (if i < 0 then (utf8Len s : Int) + i else i) < 0 then
            (Except.ok Value.vnone : FunctionResult)
          else Except.ok (charOptValue (s.get?
            (if i < 0 then (utf8Len s : Int) + i else i).toNat)))
        = _
    rw [utf8Len_ascii s hascii, if_pos hneg, if_pos hrem]
  · intro s i hneg
    show (if i < 0 then
            (Except.ok (Value.str (s.drop (max 0 ((s.length : Int) + i)).toNat))
              : FunctionResult)
          else Except.ok (Value.str (s.drop i.toNat)))
        = _
    rw [if_pos hneg]
  · intro s i hi hneg
    show (if i < 0 then (Except.ok (Value.str []) : FunctionResult)
          else Except.ok (Value.str ((s.drop i.toNat).take
            (i64ToUsize ((if hi < 0 then max 0 ((s.length : Int) + hi) else hi)
              - i)))))
        = _
    rw [if_pos hneg]

/-- Witness for `negative_indexing_amended`: `get` on a three-element list
at index `-1` counts from the end. -/
theorem negative_indexing_amended_witness :
    ((-1 : Int) < 0
      ∧ (0 : Int) ≤ (([(.str "a".data : Value), .str "b".data,
          .str "c".data].length : Int) + (-1)))
    ∧ Fns.get [.list [.str "a".data, .str "b".data, .str "c".data], .int (-1)]
        = .ok (.str "c".data) :=
  ⟨⟨by decide, by decide⟩,
   (negative_indexing_amended.1 [.str "a".data, .str "b".data, .str "c".data]
     (-1) (by decide) (by decide)).trans rfl⟩

end Xan

namespace Xan

/-- C6: the row-transform runner does attribute per-row errors 1-based (its
Panic abort message and its Log diagnostic line both carry `index + 1`), and
agg's sequential path does too (the counter is incremented before the row
runs); but agg's parallel path hands `enumerate()`'s 0-based index straight
to `handle_row_error`, which prints the index exactly as given — so the
parallel path logs `Row n°0` for the first row where the sequential path
logs `Row n°1` — and the Panic policy's handler propagates the raw error
with no row number at all. -/
theorem row_error_attribution :
    (∀ (ser : Value → Str) (args : MoonbladeCmdArgs) (i : Nat) (record : Record)
        (err : Str) (replace : Option Nat), args.error_policy = .panic →
      (handle_eval_result ser args i record (.error err) replace).1
        = .error ("Row n°".data ++ natDigits (i + 1) ++ ": ".data ++ err))
    ∧ (∀ (ser : Value → Str) (args : MoonbladeCmdArgs) (i : Nat)
        (record : Record) (err : Str) (replace : Option Nat),
        args.error_policy = .log →
      (handle_eval_result ser args i record (.error err) replace).2
        = ["Row n°".data ++ natDigits (i + 1) ++ ": ".data ++ err])
    ∧ agg_run_seq .log (fun _ _ => .error "boom".data) 0 [[]]
        = (.ok (), ["Row n°1: boom".data])
    ∧ (agg_par_step .log (fun _ _ => .error "boom".data) [[]] 0).2
        = ["Row n°0: boom".data]
    ∧ ("Row n°1: boom".data : Str) ≠ "Row n°0: boom".data
    ∧ (∀ (idx : Nat) (e : Str),
        MoonbladeErrorPolicy.handle_row_error .panic idx e = (.error e, [])) := by
  refine ⟨?_, ?_, rfl, rfl, by decide, fun idx e => rfl⟩
  · intro ser args i record err replace hpol
    simp [handle_eval_result, hpol]
  · intro ser args i record err replace hpol
    cases hr : replace <;> cases hm : args.mode <;>
      simp [handle_eval_result, hpol, hr, hm, MoonbladeMode.is_map,
        MoonbladeMode.is_transform, MoonbladeMode.cannot_report]

/-- Witness for `row_error_attribution`: the runner's Panic abort for the
first row (index 0) names row 1. -/
theorem row_error_attribution_witness :
    ({ error_policy := .panic : MoonbladeCmdArgs }).error_policy
        = MoonbladeErrorPolicy.panic
    ∧ (handle_eval_result (fun _ => []) { error_policy := .panic } 0 []
        (.error "boom".data) none).1
      = .error ("Row n°".data ++ natDigits (0 + 1) ++ ": ".data ++ "boom".data) :=
  ⟨rfl,
   row_error_attribution.1 (fun _ => []) { error_policy := .panic } 0 []
     "boom".data none rfl⟩

end Xan

namespace Xan

/-- C5: in Transform mode the header setup resolves the target column to
exactly one index, keeps (or renames) it, and compiles the user's
expression with the implicit prefix `col(<idx>) | `; the parser decomposes
the prefixed source into the `col` call followed by the user's own
pipeline; and evaluating that pipeline runs the user's stages starting from
the targeted cell's current value — a bare pipeline needs no re-indexing. -/
theorem transform_implicit_col_binding :
    (∀ (headers : Record) (target : Str) (rename : Option Str) (expr : Str)
        (idx : Nat), single_selection headers target = .ok idx →
      transform_header_setup headers target rename expr
        = .ok ((match rename with
                | some renamed => replace_at headers idx renamed
                | none => headers),
               some idx,
               "col(".data ++ natDigits idx ++ ") | ".data ++ expr))
    ∧ (∀ (idx : Nat) (expr : Str) (c₁ : Parser.FunctionCall)
        (cs : List Parser.FunctionCall), idx < 2 ^ 63 →
      Parser.pipeline expr = some (c₁ :: cs) →
      Parser.pipeline ("col(".data ++ natDigits idx ++ ") | ".data ++ expr)
        = some (⟨"col".data, [.integerLiteral (idx : Int)]⟩ :: c₁ :: cs))
    ∧ (∀ (headers record : Record) (idx : Nat)
        (calls : List Parser.FunctionCall), idx < record.length →
      evalPipeline headers record
          (⟨"col".data, [.integerLiteral (idx : Int)]⟩ :: calls)
        = calls.foldlM (fun cur c => evalCall headers record cur c)
            (Value.str (record.getD idx []))) := by
  refine ⟨?_, ?_, ?_⟩
  · intro headers target rename expr idx h
    unfold transform_header_setup
    rw [h]
    rfl
  · intro idx expr c₁ cs hidx hp
    exact Parser.pipeline_col_prefix idx hidx expr c₁ cs hp
  · intro headers record idx calls hlt
    have hcol : evalCall headers record Value.vnone
        ⟨"col".data, [.integerLiteral (idx : Int)]⟩
        = .ok (.str (record.getD idx [])) := by
      unfold evalCall
      rw [if_pos rfl]
      show (if 0 ≤ (idx : Int) ∧ (idx : Int).toNat < record.length then
              Except.ok (Value.str (record.getD (idx : Int).toNat []))
            else Except.error "col: column out of range".data)
          = Except.ok (Value.str (record.getD idx []))
      rw [if_pos ⟨Int.ofNat_nonneg idx, by rw [Int.toNat_ofNat]; exact hlt⟩,
        Int.toNat_ofNat]
    unfold evalPipeline
    rw [List.foldlM_cons, hcol]
    rfl

/-- Witness for `transform_implicit_col_binding`: target column `name` at
index 0, expression `trim | upper`, row value `" a "` — the prefixed
pipeline evaluates the user's stages on the cell's value, yielding `"A"`. -/
theorem transform_implicit_col_binding_witness :
    single_selection ["name".data] "name".data = .ok 0
    ∧ transform_header_setup ["name".data] "name".data none "trim | upper".data
        = .ok (["name".data], some 0,
            "col(".data ++ natDigits 0 ++ ") | ".data ++ "trim | upper".data)
    ∧ ("col(".data ++ natDigits 0 ++ ") | ".data ++ "trim | upper".data
        = "col(0) | trim | upper".data)
    ∧ Parser.pipeline "trim | upper".data
        = some [⟨"trim".data, [.underscore]⟩, ⟨"upper".data, [.underscore]⟩]
    ∧ Parser.pipeline "col(0) | trim | upper".data
        = some [⟨"col".data, [.integerLiteral 0]⟩, ⟨"trim".data, [.underscore]⟩,
            ⟨"upper".data, [.underscore]⟩]
    ∧ evalPipeline ["name".data] [" a ".data]
          (⟨"col".data, [.integerLiteral 0]⟩
            :: [⟨"trim".data, [.underscore]⟩, ⟨"upper".data, [.underscore]⟩])
        = .ok (.str "A".data) :=
  ⟨rfl,
   transform_implicit_col_binding.1 ["name".data] "name".data none
     "trim | upper".data 0 rfl,
   rfl,
   rfl,
   ((show ("col(".data ++ natDigits 0 ++ ") | ".data ++ "trim | upper".data
        = "col(0) | trim | upper".data) from rfl) ▸
     transform_implicit_col_binding.2.1 0 "trim | upper".data
       ⟨"trim".data, [.underscore]⟩ [⟨"upper".data, [.underscore]⟩]
       (by decide) rfl),
   (transform_implicit_col_binding.2.2 ["name".data] [" a ".data] 0
     [⟨"trim".data, [.underscore]⟩, ⟨"upper".data, [.underscore]⟩]
     (by decide)).trans rfl⟩

end Xan
